import Mathlib

/-!
# RelaxSearch crawler: a shallow embedding of `relaxengine/crawler/crawler.go`

Go strings are modelled by `String`, Go `int` by `Int` (additions wrap at 64
bits through `wrapInt`), and the two maps of the crawler by total functions
that return Go's zero value at absent keys.  Everything the crawler obtains
from outside the repository (HTTP responses, the HTML tokenizer's output,
`net/url`, `unicode.ToLower`, the iteration order of a Go map) is a parameter.
The calls a crawl makes to the outside are recorded as a list of `Event`s.
`StartCrawling` crawls the links of a page in goroutines of their own, so a
crawl is a pool of goroutines that take their steps in the order a schedule
gives; a property of the program is a property of every schedule.
-/

namespace crawler

/-! ## Machine integers -/

/-- Two's-complement wrap-around of a 64-bit Go `int`. -/
def wrapInt (x : Int) : Int :=
  (x + 9223372036854775808) % 18446744073709551616 - 9223372036854775808

/-! ## Data model -/

/-- The crawler of `crawler.go`.  `Mutex` and `LogFile` carry no data of their
own: every locked section is one atomic function below, and writes to the log
file are `Event.log` entries of the trace. -/
structure Crawler where
  VisitedURLs : String → Bool
  DepthLimit : Int
  FailureCount : String → Int
  MaxFailures : Int

/-- The record handed to the indexer. -/
structure PageData where
  URL : String
  Title : String
  Content : String
  Description : String
  Keywords : List String
deriving DecidableEq, Repr

/-- Function `NewCrawler`: two empty maps. -/
def NewCrawler (depthLimit maxFailures : Int) : Crawler :=
  { VisitedURLs := fun _ => false
    DepthLimit := depthLimit
    FailureCount := fun _ => 0
    MaxFailures := maxFailures }

/-- Method `isVisited`: `c.VisitedURLs[url]`. -/
def isVisited (c : Crawler) (url : String) : Bool :=
  c.VisitedURLs url

/-- Method `markVisited`: `c.VisitedURLs[url] = true`. -/
def markVisited (c : Crawler) (url : String) : Crawler :=
  { c with VisitedURLs := fun u => if u = url then true else c.VisitedURLs u }

/-- Method `incrementFailure`: `c.FailureCount[url]++` (the message it prints is not modelled). -/
def incrementFailure (c : Crawler) (url : String) : Crawler :=
  { c with FailureCount := fun u =>
      if u = url then wrapInt (c.FailureCount u + 1) else c.FailureCount u }

/-- Method `resetFailure`: `c.FailureCount[url] = 0`. -/
def resetFailure (c : Crawler) (url : String) : Crawler :=
  { c with FailureCount := fun u => if u = url then 0 else c.FailureCount u }

/-- Method `isBlocked`: `c.FailureCount[url] >= c.MaxFailures`. -/
def isBlocked (c : Crawler) (url : String) : Bool :=
  decide (c.FailureCount url ≥ c.MaxFailures)

/-! ## URL resolution -/

/-- The operations of Go's `net/url` that the crawler calls.  The package is
not part of the repository, so it is a parameter: `U` stands for `*url.URL`. -/
structure URLLib (U : Type) where
  /-- The function `url.Parse`; `none` stands for a non-nil error. -/
  Parse : String → Option U
  /-- The method `(*URL).ResolveReference`. -/
  ResolveReference : U → U → U
  /-- The method `(*URL).String`. -/
  Str : U → String

/-- The method `(*URL).Parse` of `net/url`: parse `ref`, and on success resolve
it against the receiver with `ResolveReference`. -/
def URLLib.ParseRef {U : Type} (L : URLLib U) (u : U) (ref : String) : Option U :=
  match L.Parse ref with
  | none => none
  | some refURL => some (L.ResolveReference u refURL)

/-- Method `resolveURL`: resolve `href` against `base`; empty on a parse error. -/
def resolveURL {U : Type} (L : URLLib U) (base href : String) : String :=
  match L.Parse base with
  | none => ""
  | some baseURL =>
    match L.ParseRef baseURL href with
    | none => ""
    | some parsedURL => L.Str parsedURL

/-- Token types of `golang.org/x/net/html`.  `ErrorToken` is not listed: it is
what the tokenizer returns, for ever, once the token list is exhausted. -/
inductive TokenType where
  | TextToken
  | StartTagToken
  | EndTagToken
  | SelfClosingTagToken
  | CommentToken
  | DoctypeToken
deriving DecidableEq, Repr

/-- An attribute of a tag token, `html.Attribute`. -/
structure Attribute where
  Key : String
  Val : String
deriving DecidableEq, Repr

/-- A token, `html.Token`: for a tag `Data` is the tag name, for text the text. -/
structure Token where
  Typ : TokenType
  Data : String
  Attr : List Attribute
deriving DecidableEq, Repr

/-- What `fetchAndParsePage` returns when `err` is nil. -/
structure Page where
  links : List String
  title : String
  content : String
  description : String
deriving DecidableEq, Repr

/-- The loop over the attributes of an `a` start tag: every `href` that
resolves to a non-empty, not yet visited URL is appended to `links`. -/
def anchorLinks {U : Type} (L : URLLib U) (c : Crawler) (pageURL : String)
    (attrs : List Attribute) (links : List String) : List String :=
  attrs.foldl (fun links attr =>
    if attr.Key = "href" then
      let absoluteLink := resolveURL L pageURL attr.Val
      if absoluteLink ≠ "" ∧ isVisited c absoluteLink = false then links ++ [absoluteLink]
      else links
    else links) links

/-- The two nested loops over the attributes of a `meta` start tag. -/
def metaDescription (attrs : List Attribute) (description : String) : String :=
  attrs.foldl (fun description attr =>
    if attr.Key = "name" ∧ attr.Val = "description" then
      attrs.foldl (fun description attr2 =>
        if attr2.Key = "content" then attr2.Val else description) description
    else description) description

/-- The token loop of `fetchAndParsePage`, over the tokens the tokenizer has
still to deliver.  The `title` case calls `tokenizer.Next()` itself, so the
token after a `title` start tag is used up there; at the end of the stream that
call returns the error token, whose `Data` is empty. -/
def parseTokens {U : Type} (L : URLLib U) (c : Crawler) (pageURL : String) :
    List Token → Page → Page
  | [], p => p
  | t :: rest, p =>
    match t.Typ with
    | TokenType.StartTagToken =>
      if t.Data = "a" then
        parseTokens L c pageURL rest { p with links := anchorLinks L c pageURL t.Attr p.links }
      else if t.Data = "title" then
        match rest with
        | [] => { p with title := "" }
        | t2 :: rest2 => parseTokens L c pageURL rest2 { p with title := t2.Data }
      else if t.Data = "meta" then
        parseTokens L c pageURL rest { p with description := metaDescription t.Attr p.description }
      else parseTokens L c pageURL rest p
    | TokenType.TextToken => parseTokens L c pageURL rest { p with content := p.content ++ t.Data }
    | _ => parseTokens L c pageURL rest p

/-- Method `fetchAndParsePage`: `httpGet` gives, for a URL, the token stream of the
response body, or `none` when `http.Get` returns an error. -/
def fetchAndParsePage {U : Type} (L : URLLib U) (httpGet : String → Option (List Token))
    (c : Crawler) (pageURL : String) : Option Page :=
  match httpGet pageURL with
  | none => none
  | some tokens => some (parseTokens L c pageURL tokens ⟨[], "", "", ""⟩)

/-! ## Keyword extraction -/

/-- Go's `unicode.IsSpace`: the Latin-1 spaces and the other code points with
the Unicode White_Space property. -/
def isSpace (ch : Char) : Bool :=
  let n := ch.toNat
  n = 9 || n = 10 || n = 11 || n = 12 || n = 13 || n = 32 || n = 133 || n = 160 ||
  n = 5760 || (8192 ≤ n && n ≤ 8202) || n = 8232 || n = 8233 || n = 8239 ||
  n = 8287 || n = 12288

/-- The scan of `strings.Fields`: `cur` holds the characters of the field being
read; a field ends at a white space character or at the end of the input. -/
def fieldsFrom : List Char → List Char → List String
  | [], cur => if cur = [] then [] else [String.mk cur]
  | ch :: rest, cur =>
    if isSpace ch then
      if cur = [] then fieldsFrom rest [] else String.mk cur :: fieldsFrom rest []
    else fieldsFrom rest (cur ++ [ch])

/-- Go's `strings.Fields`: the maximal runs of non-space characters, in order. -/
def Fields (s : String) : List String :=
  fieldsFrom s.data []

/-- Go's `strings.Trim`: drop the leading and the trailing characters that occur in `cutset`. -/
def Trim (s cutset : String) : String :=
  String.mk ((s.data.dropWhile (fun ch => decide (ch ∈ cutset.data))).reverse.dropWhile
    (fun ch => decide (ch ∈ cutset.data))).reverse

/-- Go's `strings.ToLower`: `unicode.ToLower`, here the parameter `lower`,
applied to every character. -/
def ToLower (lower : Char → Char) (s : String) : String :=
  String.mk (s.data.map lower)

/-- Go's `len` on a string: the number of bytes of its UTF-8 encoding. -/
def len (s : String) : Nat :=
  s.utf8ByteSize

/-- The cutset of `extractKeywords`: the characters `. , ! ? : ;`, the double
quote and the single quote. -/
def punctuation : String :=
  String.mk [Char.ofNat 46, Char.ofNat 44, Char.ofNat 33, Char.ofNat 63, Char.ofNat 58,
    Char.ofNat 59, Char.ofNat 34, Char.ofNat 39]

/-- The order in which `range` walks the keys of a Go map: unspecified, so any
rearrangement `iter` of the keys, with `keys` listing them as inserted. -/
structure MapOrder where
  iter : List String → List String
  perm : ∀ keys : List String, (iter keys).Perm keys

/-- The statement `keywordSet[word] = struct{}{}` on the list of keys of the set. -/
def setInsert (keys : List String) (word : String) : List String :=
  if word ∈ keys then keys else keys ++ [word]

/-- The first loop of `extractKeywords`: the keys of `keywordSet` after the
words have been handled, starting from the keys `keys`. -/
def keywordSet (lower : Char → Char) (words : List String) (keys : List String) : List String :=
  words.foldl (fun keys word =>
    let word := ToLower lower (Trim word punctuation)
    if len word > 3 then setInsert keys word else keys) keys

/-- Function `extractKeywords`: the keys of the set, in the order the map yields them. -/
def extractKeywords (lower : Char → Char) (order : MapOrder) (content : String) : List String :=
  order.iter (keywordSet lower (Fields content) [])

/-! ## The crawl engine -/

/-- The calls a crawl makes to the world outside the crawler's two maps. -/
inductive Event where
  /-- A line written by `logURL`. -/
  | log (url : String)
  /-- A call of `isAllowedByRobots`. -/
  | robots (url : String)
  /-- A call of `fetchAndParsePage`, made by `StartCrawling(url, depth)`. -/
  | fetch (url : String) (depth : Int)
  /-- A call of `IndexPageData`; its error is printed and dropped. -/
  | index (data : PageData)
deriving DecidableEq, Repr

/-- The callees of `StartCrawling`: `robots` is `isAllowedByRobots`, `fetch`
is `fetchAndParsePage` (`none` for a non-nil error), `keywords` is
`extractKeywords`.  What a fetch returns may depend on the URL, on the crawler
at the time of the call and on everything that happened before it in the
crawl, given as the events so far: a server need not answer the same request
twice alike. -/
structure Env where
  robots : String → Bool
  fetch : List Event → Crawler → String → Option Page
  keywords : String → List String

/-- The events of a trace that are fetches, as the list of fetched URLs. -/
def fetched : List Event → List String
  | [] => []
  | Event.fetch url _ :: rest => url :: fetched rest
  | _ :: rest => fetched rest

/-- The statement of `StartCrawling` a goroutine executes next.  Every call
of a method that holds `c.Mutex` is one stage, and so is every call to the
outside; a page that has been fetched travels with the stages that use it. -/
inductive Stage where
  /-- About to evaluate `depth > c.DepthLimit`. -/
  | depthCheck
  /-- About to call `c.isVisited(pageURL)`. -/
  | visitedCheck
  /-- About to call `c.isBlocked(pageURL)`. -/
  | blockedCheck
  /-- About to call `c.markVisited(pageURL)`. -/
  | mark
  /-- About to call `c.logURL(pageURL)`. -/
  | logURL
  /-- About to call `c.isAllowedByRobots(pageURL)`. -/
  | robots
  /-- About to call `c.incrementFailure(pageURL)` after a robots denial. -/
  | denied
  /-- About to call `c.fetchAndParsePage(pageURL)`. -/
  | fetch
  /-- About to call `c.incrementFailure(pageURL)` after a fetch error. -/
  | failed
  /-- About to call `c.resetFailure(pageURL)`. -/
  | reset (p : Page)
  /-- About to call `IndexPageData`. -/
  | index (p : Page)
  /-- About to start one goroutine for each link of the page. -/
  | spawn (p : Page)
  /-- In `wg.Wait()`. -/
  | wait
  /-- The call has returned (and, in a child, `wg.Done()` has run). -/
  | returned
deriving DecidableEq, Repr

/-- Whether a stage is `returned`. -/
def Stage.isReturned : Stage → Bool
  | Stage.returned => true
  | _ => false

/-- A goroutine that executes `StartCrawling(pageURL, depth)`; `parent` is the
position in the pool of the goroutine that started it, `none` for the caller. -/
structure Goroutine where
  pageURL : String
  depth : Int
  stage : Stage
  parent : Option Nat
deriving DecidableEq, Repr

/-- A crawl in progress: the crawler shared by all goroutines, the events so
far, and the goroutines started so far, in the order they were started. -/
structure Machine where
  c : Crawler
  trace : List Event
  pool : List Goroutine

/-- Move goroutine `i`, which is `g`, to the stage `stage`. -/
def Machine.advance (m : Machine) (i : Nat) (g : Goroutine) (stage : Stage) : Machine :=
  { m with pool := m.pool.set i { g with stage := stage } }

/-- One step of goroutine `i`: the statement of `StartCrawling` it stands at.
A goroutine in `wg.Wait()` moves on only when every goroutine it started has
returned; a goroutine that has returned, or a position past the end of the
pool, does nothing.  The goroutines of a page are started in one step, which
loses no behaviour: a goroutine that has taken no step has had no effect.  A
fetch is one step as well: it writes nothing to the crawler, and what it
returns is left to `env.fetch`, which is given the events so far and the
crawler of that moment. -/
def Machine.step (env : Env) (i : Nat) (m : Machine) : Machine :=
  match m.pool.get? i with
  | none => m
  | some g =>
    match g.stage with
    | Stage.depthCheck =>
      m.advance i g (if g.depth > m.c.DepthLimit then Stage.returned else Stage.visitedCheck)
    | Stage.visitedCheck =>
      m.advance i g (if isVisited m.c g.pageURL = true then Stage.returned else Stage.blockedCheck)
    | Stage.blockedCheck =>
      m.advance i g (if isBlocked m.c g.pageURL = true then Stage.returned else Stage.mark)
    | Stage.mark => { m with c := markVisited m.c g.pageURL }.advance i g Stage.logURL
    | Stage.logURL => { m with trace := m.trace ++ [Event.log g.pageURL] }.advance i g Stage.robots
    | Stage.robots =>
      { m with trace := m.trace ++ [Event.robots g.pageURL] }.advance i g
        (if env.robots g.pageURL = false then Stage.denied else Stage.fetch)
    | Stage.denied => { m with c := incrementFailure m.c g.pageURL }.advance i g Stage.returned
    | Stage.fetch =>
      { m with trace := m.trace ++ [Event.fetch g.pageURL g.depth] }.advance i g
        (match env.fetch m.trace m.c g.pageURL with
          | none => Stage.failed
          | some p => Stage.reset p)
    | Stage.failed => { m with c := incrementFailure m.c g.pageURL }.advance i g Stage.returned
    | Stage.reset p => { m with c := resetFailure m.c g.pageURL }.advance i g (Stage.index p)
    | Stage.index p =>
      { m with trace := m.trace ++ [Event.index
          { URL := g.pageURL
            Title := p.title
            Content := p.content
            Description := p.description
            Keywords := env.keywords p.content }] }.advance i g (Stage.spawn p)
    | Stage.spawn p =>
      { m with pool := m.pool.set i { g with stage := Stage.wait } ++
          p.links.map (fun link => ⟨link, wrapInt (g.depth + 1), Stage.depthCheck, some i⟩) }
    | Stage.wait =>
      if m.pool.all (fun t => decide (t.parent ≠ some i) || t.stage.isReturned) = true then
        m.advance i g Stage.returned
      else m
    | Stage.returned => m

/-- Run a schedule: the list of the goroutines that take a step, in order. -/
def Machine.run (env : Env) : List Nat → Machine → Machine
  | [], m => m
  | i :: rest, m => Machine.run env rest (Machine.step env i m)

/-- Whether the call that started the crawl has returned. -/
def Machine.returned (m : Machine) : Bool :=
  match m.pool with
  | [] => false
  | g :: _ => g.stage.isReturned

/-- The moment `StartCrawling(pageURL, depth)` is called on the crawler `c`. -/
def startCall (c : Crawler) (pageURL : String) (depth : Int) : Machine :=
  ⟨c, [], [⟨pageURL, depth, Stage.depthCheck, none⟩]⟩

/-- Method `StartCrawling`, run under the schedule `sched`: the crawler, the
events and the goroutines after the steps of `sched`.  The children of a page
are goroutines of their own, so their steps interleave as the schedule says, and
the caller waits for them. -/
def StartCrawling (env : Env) (sched : List Nat) (c : Crawler) (pageURL : String)
    (depth : Int) : Machine :=
  Machine.run env sched (startCall c pageURL depth)

/-- Calls of `StartCrawling` made one after another on the same crawler, as the
scheduler of `cmd/main.go` makes them: each call, a schedule with a URL and a
depth, starts from the crawler the call before it left. -/
def runCalls (env : Env) (calls : List (List Nat × String × Int))
    (acc : Crawler × List Event) : Crawler × List Event :=
  calls.foldl (fun acc call =>
    let m := StartCrawling env call.1 acc.1 call.2.1 call.2.2
    (m.c, acc.2 ++ m.trace)) acc

/-! ## Invariants of a crawl -/

/-- The stages between the depth guard and the return. -/
def Stage.passed : Stage → Bool
  | Stage.depthCheck => false
  | Stage.returned => false
  | _ => true

/-- What every step keeps true about depths: the limit does not change, a
goroutine past its depth guard has a depth within the limit, and so has every
fetch made so far. -/
structure DepthInv (L : Int) (m : Machine) : Prop where
  limit : m.c.DepthLimit = L
  pool : ∀ g, g ∈ m.pool → g.stage.passed = true → g.depth ≤ L
  trace : ∀ u d, Event.fetch u d ∈ m.trace → d ≤ L

/-- The stages at which a goroutine has not passed the blocked guard. -/
def Stage.beforeMark : Stage → Bool
  | Stage.depthCheck => true
  | Stage.visitedCheck => true
  | Stage.blockedCheck => true
  | Stage.returned => true
  | _ => false

/-- What every step keeps true about a URL `u` that was blocked in the crawler
`c0` when no goroutine for `u` was past the blocked guard: its count and the
threshold stay, no goroutine for `u` gets past the guard, and `u` gets neither
a robots check nor a fetch. -/
structure BlockedInv (u : String) (c0 : Crawler) (m : Machine) : Prop where
  count : m.c.FailureCount u = c0.FailureCount u
  maxf : m.c.MaxFailures = c0.MaxFailures
  pool : ∀ g, g ∈ m.pool → g.pageURL = u → g.stage.beforeMark = true
  robots : Event.robots u ∉ m.trace
  fetch : u ∉ fetched m.trace

/-! ## Two concurrent calls

`StartCrawling` starts its children as goroutines.  Every access to the two
maps happens inside a method that holds `c.Mutex` from its first to its last
statement, so each such method call is one atomic step, and a concurrent run
is an interleaving of the steps of its tasks.  The machine of this section
follows two direct calls for one URL up to their fetch; the pool of goroutines
above follows a whole crawl. -/

/-- The statement of `StartCrawling` a task executes next, up to the call of
`fetchAndParsePage`; the statements after that call are not modelled. -/
inductive PC where
  /-- About to evaluate `depth > c.DepthLimit`. -/
  | depthCheck
  /-- About to call `c.isVisited(pageURL)`. -/
  | visitedCheck
  /-- About to call `c.isBlocked(pageURL)`. -/
  | blockedCheck
  /-- About to call `c.markVisited(pageURL)`. -/
  | mark
  /-- About to call `c.logURL(pageURL)`. -/
  | logURL
  /-- About to call `c.isAllowedByRobots(pageURL)`. -/
  | robots
  /-- About to call `c.incrementFailure(pageURL)` after a robots denial. -/
  | denied
  /-- About to call `c.fetchAndParsePage(pageURL)`. -/
  | fetch
  /-- The call of `fetchAndParsePage` has been made. -/
  | fetching
  /-- The call of `StartCrawling` has returned. -/
  | returned
deriving DecidableEq, Repr

/-- A task executing `StartCrawling(pageURL, depth)`. -/
structure Task where
  pageURL : String
  depth : Int
  pc : PC
deriving DecidableEq, Repr

/-- One atomic step of a task on the shared crawler and trace. -/
def Task.step (env : Env) (s : Crawler × List Event) (t : Task) :
    (Crawler × List Event) × Task :=
  match t.pc with
  | PC.depthCheck =>
    (s, { t with pc := if t.depth > s.1.DepthLimit then PC.returned else PC.visitedCheck })
  | PC.visitedCheck =>
    (s, { t with pc := if isVisited s.1 t.pageURL = true then PC.returned else PC.blockedCheck })
  | PC.blockedCheck =>
    (s, { t with pc := if isBlocked s.1 t.pageURL = true then PC.returned else PC.mark })
  | PC.mark => ((markVisited s.1 t.pageURL, s.2), { t with pc := PC.logURL })
  | PC.logURL => ((s.1, s.2 ++ [Event.log t.pageURL]), { t with pc := PC.robots })
  | PC.robots =>
    ((s.1, s.2 ++ [Event.robots t.pageURL]),
      { t with pc := if env.robots t.pageURL = false then PC.denied else PC.fetch })
  | PC.denied => ((incrementFailure s.1 t.pageURL, s.2), { t with pc := PC.returned })
  | PC.fetch => ((s.1, s.2 ++ [Event.fetch t.pageURL t.depth]), { t with pc := PC.fetching })
  | PC.fetching => (s, t)
  | PC.returned => (s, t)

/-- Two tasks on one crawler. -/
structure System where
  shared : Crawler × List Event
  first : Task
  second : Task

/-- Run a schedule: `false` lets the first task take its next step, `true` the second. -/
def runSchedule (env : Env) : List Bool → System → System
  | [], sys => sys
  | false :: rest, sys =>
    let r := Task.step env sys.shared sys.first
    runSchedule env rest { sys with shared := r.1, first := r.2 }
  | true :: rest, sys =>
    let r := Task.step env sys.shared sys.second
    runSchedule env rest { sys with shared := r.1, second := r.2 }

/-- Two tasks that have both just called `StartCrawling(pageURL, depth)` on `c`. -/
def twoCalls (c : Crawler) (pageURL : String) (depth : Int) : System :=
  { shared := (c, [])
    first := ⟨pageURL, depth, PC.depthCheck⟩
    second := ⟨pageURL, depth, PC.depthCheck⟩ }

/-- The schedule in which the two tasks take turns, seven steps each. -/
def alternating : List Bool :=
  [false, true, false, true, false, true, false, true, false, true, false, true, false, true]

/-- The schedule in which the first task takes its seven steps before the second starts. -/
def oneAfterTheOther : List Bool :=
  [false, false, false, false, false, false, false, true, true, true, true, true, true, true]

/-! ## A fragment of `net/url` -/

/-- The fields of Go's `url.URL` that can be non-empty for the URLs of the
fragment below. -/
structure GoURL where
  Scheme : String
  Host : String
  Path : String
deriving DecidableEq, Repr

/-- An ASCII letter. -/
def isLetter (ch : Char) : Bool :=
  ('a' ≤ ch && ch ≤ 'z') || ('A' ≤ ch && ch ≤ 'Z')

/-- An ASCII digit. -/
def isDigit (ch : Char) : Bool :=
  '0' ≤ ch && ch ≤ '9'

/-- The scan of `getScheme` in `net/url`, with `seen` the characters read so
far: the scheme and what follows its colon, no scheme and the whole input when
a character that cannot be in a scheme comes first, `none` for the error
"missing protocol scheme". -/
def getSchemeFrom : List Char → List Char → List Char → Option (List Char × List Char)
  | _, [], whole => some ([], whole)
  | seen, ch :: rest, whole =>
    if isLetter ch then getSchemeFrom (seen ++ [ch]) rest whole
    else if isDigit ch || ch = '+' || ch = '-' || ch = '.' then
      if seen = [] then some ([], whole) else getSchemeFrom (seen ++ [ch]) rest whole
    else if ch = ':' then
      if seen = [] then none else some (seen, rest)
    else some ([], whole)

/-- The characters the fragment allows in a host. -/
def hostChar (ch : Char) : Bool :=
  isLetter ch || isDigit ch || ch = '.' || ch = '-'

/-- The characters the fragment allows in a path: no dot, so no dot segments,
and nothing that Go would escape. -/
def pathChar (ch : Char) : Bool :=
  isLetter ch || isDigit ch || ch = '/' || ch = '-' || ch = '_'

/-- Go's `url.Parse` on the fragment made of the absolute URLs
`scheme://host/path` and the path references `/path`, without user
information, port, query, fragment, escapes or dots in the path.  On these
`url.Parse` succeeds, stores the scheme in lower case and stores host and path
as written.  Outside the fragment the answer is `none`, which says nothing
about Go: the fragment only serves to run `resolveURL` on concrete inputs. -/
def GoURL.parse (rawURL : String) : Option GoURL :=
  match getSchemeFrom [] rawURL.data rawURL.data with
  | none => none
  | some (scheme, rest) =>
    if scheme = [] then
      match rest with
      | '/' :: '/' :: _ => none
      | '/' :: tail =>
        if tail.all pathChar then some ⟨"", "", String.mk rest⟩ else none
      | _ => none
    else
      match rest with
      | '/' :: '/' :: authority =>
        let host := authority.takeWhile (fun ch => ch ≠ '/')
        let path := authority.dropWhile (fun ch => ch ≠ '/')
        if host ≠ [] ∧ host.all hostChar = true ∧ path.all pathChar = true then
          some ⟨String.mk (scheme.map Char.toLower), String.mk host, String.mk path⟩
        else none
      | _ => none

/-- Go's `ResolveReference` on the fragment: a reference with a scheme or a
host stands for itself, a path reference takes scheme and host from the base
(and the path too when its own is empty). -/
def GoURL.resolveReference (u ref : GoURL) : GoURL :=
  if ref.Scheme ≠ "" ∨ ref.Host ≠ "" then ref
  else if ref.Path = "" then { ref with Scheme := u.Scheme, Host := u.Host, Path := u.Path }
  else { ref with Scheme := u.Scheme, Host := u.Host }

/-- Go's `URL.String` on the fragment: `scheme:`, then `//host`, then the path. -/
def GoURL.string (u : GoURL) : String :=
  (if u.Scheme ≠ "" then u.Scheme ++ ":" else "") ++
  (if u.Scheme ≠ "" ∨ u.Host ≠ "" then
    (if u.Host ≠ "" ∨ u.Path ≠ "" then "//" else "") ++ u.Host else "") ++ u.Path

/-- The fragment as a URL library. -/
def goFragment : URLLib GoURL :=
  { Parse := GoURL.parse
    ResolveReference := GoURL.resolveReference
    Str := GoURL.string }

/-- Map order that yields the keys as they were inserted. -/
def insertionOrder : MapOrder :=
  ⟨id, fun _ => List.Perm.refl _⟩

/-- Map order that yields the keys last inserted first. -/
def reverseOrder : MapOrder :=
  ⟨List.reverse, fun keys => List.reverse_perm keys⟩

/-- The callees for a web given as a link graph: every URL is allowed and
fetched without error, and its page has the links `g url` and no text. -/
def Env.ofGraph (g : String → List String) : Env :=
  { robots := fun _ => true
    fetch := fun _ _ url => some ⟨g url, "", "", ""⟩
    keywords := fun _ => [] }

/-- The graph in which `A` links to `B` and `C`, and `B` links to `D`. -/
def scenarioGraph (url : String) : List String :=
  if url = "A" then ["B", "C"] else if url = "B" then ["D"] else []

/-- The schedule of the scenario in which each goroutine runs to its end
before the next one starts: `A` up to its wait, then `B`, the child `D` of `B`,
the return of `B`, then `C`, and the return of `A`. -/
def depthFirst : List Nat :=
  [0, 0, 0, 0, 0, 0, 0, 0, 0, 0, 1, 1, 1, 1, 1, 1, 1, 1, 1, 1, 3, 1,
    2, 2, 2, 2, 2, 2, 2, 2, 2, 2, 2, 0]

/-- A schedule of the scenario in which `C` and `B` take turns, `C` first. -/
def takingTurns : List Nat :=
  [0, 0, 0, 0, 0, 0, 0, 0, 0, 0, 2, 1, 2, 1, 2, 1, 2, 1, 2, 1, 2, 1, 2, 1, 2, 1, 2, 1, 2, 1,
    2, 3, 1, 0]

/-- The callees when every URL is allowed and every fetch returns an error. -/
def failEnv : Env :=
  { robots := fun _ => true
    fetch := fun _ _ _ => none
    keywords := fun _ => [] }

/-- The callees for a web in which `A` links to `B` twice and the server of `B`
fails the first request made to it and answers every later one. -/
def retryEnv : Env :=
  { robots := fun _ => true
    fetch := fun tr _ url =>
      if url = "B" ∧ "B" ∉ fetched tr then none
      else some ⟨if url = "A" then ["B", "B"] else [], "", "", ""⟩
    keywords := fun _ => [] }

/-- The schedule in which the two children for `B` take turns up to their
fetch, and the first of them then fetches, fails and counts its failure. -/
def untilBlocked : List Nat :=
  [0, 0, 0, 0, 0, 0, 0, 0, 0, 0, 1, 2, 1, 2, 1, 2, 1, 2, 1, 2, 1, 2, 1, 1]

/-- The rest of the run: the second child fetches, resets the count and
returns, and the caller returns. -/
def afterBlocked : List Nat :=
  [2, 2, 2, 2, 2, 0]

/-- A crawler in which `X` has reached the failure threshold. -/
def blockedCrawler : Crawler :=
  { VisitedURLs := fun _ => false
    DepthLimit := 1
    FailureCount := fun u => if u = "X" then 2 else 0
    MaxFailures := 2 }

/-- The tag `meta name="description" content="d"` as a token of type `typ`. -/
def metaTag (typ : TokenType) : Token :=
  ⟨typ, "meta", [⟨"name", "description"⟩, ⟨"content", "d"⟩]⟩

/-- The tokens of the body
`<title>Hi</title><meta name="description" content="d"/><a href="/p">link</a>`:
the tokenizer reports a tag that ends in `/>` as a self-closing tag token. -/
def scenarioBody : List Token :=
  [⟨TokenType.StartTagToken, "title", []⟩, ⟨TokenType.TextToken, "Hi", []⟩,
   ⟨TokenType.EndTagToken, "title", []⟩, metaTag TokenType.SelfClosingTagToken,
   ⟨TokenType.StartTagToken, "a", [⟨"href", "/p"⟩]⟩, ⟨TokenType.TextToken, "link", []⟩,
   ⟨TokenType.EndTagToken, "a", []⟩]

/-! ## The states of the scenario crawl -/

/-- The page of `url` in the scenario. -/
def scenarioPage (url : String) : Page :=
  ⟨scenarioGraph url, "", "", ""⟩

/-- The stages before the children are started, on the way without a failure. -/
def Stage.early : Stage → Bool
  | Stage.depthCheck => true
  | Stage.visitedCheck => true
  | Stage.blockedCheck => true
  | Stage.mark => true
  | Stage.logURL => true
  | Stage.robots => true
  | Stage.fetch => true
  | Stage.reset _ => true
  | Stage.index _ => true
  | _ => false

/-- The stages after `markVisited`. -/
def Stage.pastMark : Stage → Bool
  | Stage.depthCheck => false
  | Stage.visitedCheck => false
  | Stage.blockedCheck => false
  | Stage.mark => false
  | _ => true

/-- The stages after a fetch without error. -/
def Stage.pastFetch : Stage → Bool
  | Stage.reset _ => true
  | Stage.index _ => true
  | Stage.spawn _ => true
  | Stage.wait => true
  | Stage.returned => true
  | _ => false

/-- The stages a goroutine of the scenario can be at for `url`: no failure,
and the page it carries is the page of `url`. -/
def Stage.pageOk (url : String) : Stage → Prop
  | Stage.reset p => p = scenarioPage url
  | Stage.index p => p = scenarioPage url
  | Stage.spawn p => p = scenarioPage url
  | Stage.denied => False
  | Stage.failed => False
  | _ => True

/-- What holds of the crawler and the events throughout the scenario. -/
structure Glob (maxFailures : Int) (c : Crawler) (tr : List Event) : Prop where
  limit : c.DepthLimit = 1
  maxf : c.MaxFailures = maxFailures
  counts : ∀ u, c.FailureCount u = 0
  nodup : (fetched tr).Nodup
  known : ∀ u, u ∈ fetched tr → u = "A" ∨ u = "B" ∨ u = "C"

/-- How the stage of the one goroutine of `url` shows in the crawler and the events. -/
structure Link (url : String) (st : Stage) (c : Crawler) (tr : List Event) : Prop where
  visited : c.VisitedURLs url = st.pastMark
  fetched : url ∈ fetched tr ↔ st.pastFetch = true
  ok : st.pageOk url

/-- The stages the goroutine of `C` can be at. -/
def lateOk (st : Stage) : Prop :=
  st.early = true ∨ st = Stage.spawn (scenarioPage "C") ∨ st = Stage.wait ∨ st = Stage.returned

/-- The states of the scenario crawl: `A` alone while it has not started its
children, then `A` waiting with `B` and `C`, then `D` as well once `B` has
started it; a goroutine has returned only after its children have. -/
inductive Scn (maxFailures : Int) : Machine → Prop where
  | one (c : Crawler) (tr : List Event) (a : Stage) :
    Glob maxFailures c tr → Link "A" a c tr → Link "B" Stage.depthCheck c tr →
    Link "C" Stage.depthCheck c tr →
    (a.early = true ∨ a = Stage.spawn (scenarioPage "A")) →
    Scn maxFailures ⟨c, tr, [⟨"A", 0, a, none⟩]⟩
  | three (c : Crawler) (tr : List Event) (b cc : Stage) :
    Glob maxFailures c tr → Link "A" Stage.wait c tr → Link "B" b c tr → Link "C" cc c tr →
    (b.early = true ∨ b = Stage.spawn (scenarioPage "B")) → lateOk cc →
    Scn maxFailures ⟨c, tr,
      [⟨"A", 0, Stage.wait, none⟩, ⟨"B", 1, b, some 0⟩, ⟨"C", 1, cc, some 0⟩]⟩
  | four (c : Crawler) (tr : List Event) (a b cc d : Stage) :
    Glob maxFailures c tr → Link "A" a c tr → Link "B" b c tr → Link "C" cc c tr →
    (a = Stage.wait ∨ (a = Stage.returned ∧ b = Stage.returned ∧ cc = Stage.returned)) →
    (b = Stage.wait ∨ (b = Stage.returned ∧ d = Stage.returned)) → lateOk cc →
    (d = Stage.depthCheck ∨ d = Stage.returned) →
    Scn maxFailures ⟨c, tr,
      [⟨"A", 0, a, none⟩, ⟨"B", 1, b, some 0⟩, ⟨"C", 1, cc, some 0⟩, ⟨"D", 2, d, some 1⟩]⟩

/-! ## Reference definitions for the page content -/

/-- The concatenation, in order, of the data of the text tokens of a list. -/
def textOf : List Token → String
  | [] => ""
  | t :: rest => if t.Typ = TokenType.TextToken then t.Data ++ textOf rest else textOf rest

/-- The tokens that reach the `switch` of the token loop: all but the token
that comes right after a `title` start tag which itself reached the `switch`. -/
def loopTokens : List Token → List Token
  | [] => []
  | [t] => [t]
  | t :: t2 :: rest =>
    if t.Typ = TokenType.StartTagToken ∧ t.Data = "title" then t :: loopTokens rest
    else t :: loopTokens (t2 :: rest)

/-! # Theorems -/

theorem fetched_append (a b : List Event) : fetched (a ++ b) = fetched a ++ fetched b := by
  induction a with
  | nil => rfl
  | cons e a ih => cases e <;> simp [fetched, ih]

/-! ## Every step keeps the depth invariant -/

theorem mem_advance {m : Machine} {i : Nat} {g x : Goroutine} {st : Stage}
    (h : x ∈ (m.advance i g st).pool) : x ∈ m.pool ∨ x = { g with stage := st } := by
  simpa [Machine.advance] using List.mem_or_eq_of_mem_set h

theorem advance_depthInv {L : Int} {m m2 : Machine} {i : Nat} {g : Goroutine} {st : Stage}
    (h : DepthInv L m) (hc : m2.c.DepthLimit = m.c.DepthLimit) (hp : m2.pool = m.pool)
    (ht : ∀ u d, Event.fetch u d ∈ m2.trace → Event.fetch u d ∈ m.trace ∨ d ≤ L)
    (hst : st.passed = true → g.depth ≤ L) : DepthInv L (m2.advance i g st) where
  limit := by simpa [Machine.advance, hc] using h.limit
  pool := by
    intro x hx hpass
    rcases mem_advance hx with hx | rfl
    · exact h.pool x (hp ▸ hx) hpass
    · exact hst hpass
  trace := by
    intro u d hd
    rcases ht u d (by simpa [Machine.advance] using hd) with hd | hd
    · exact h.trace u d hd
    · exact hd

theorem step_depthInv (env : Env) (L : Int) (i : Nat) (m : Machine) (h : DepthInv L m) :
    DepthInv L (Machine.step env i m) := by
  unfold Machine.step
  split
  · exact h
  · rename_i g hg
    have hmem : g ∈ m.pool := List.get?_mem hg
    have hlim := h.limit
    split
    · rename_i hs
      refine advance_depthInv h rfl rfl (fun u d hd => Or.inl hd) ?_
      split
      · simp [Stage.passed]
      · intro _; omega
    all_goals rename_i hs
    all_goals first
      | exact h
      | have hdep : g.depth ≤ L := h.pool g hmem (by rw [hs]; rfl)
    · exact advance_depthInv h rfl rfl (fun u d hd => Or.inl hd) (fun _ => hdep)
    · exact advance_depthInv h rfl rfl (fun u d hd => Or.inl hd) (fun _ => hdep)
    · exact advance_depthInv h rfl rfl (fun u d hd => Or.inl hd) (fun _ => hdep)
    · exact advance_depthInv h rfl rfl (fun u d hd => Or.inl (by simpa using hd)) (fun _ => hdep)
    · exact advance_depthInv h rfl rfl (fun u d hd => Or.inl (by simpa using hd)) (fun _ => hdep)
    · exact advance_depthInv h rfl rfl (fun u d hd => Or.inl hd) (fun _ => hdep)
    · refine advance_depthInv h rfl rfl (fun u d hd => ?_) (fun _ => hdep)
      simp only [List.mem_append, List.mem_singleton, Event.fetch.injEq] at hd
      rcases hd with hd | ⟨_, rfl⟩
      · exact Or.inl hd
      · exact Or.inr hdep
    · exact advance_depthInv h rfl rfl (fun u d hd => Or.inl hd) (fun _ => hdep)
    · exact advance_depthInv h rfl rfl (fun u d hd => Or.inl hd) (fun _ => hdep)
    · exact advance_depthInv h rfl rfl (fun u d hd => Or.inl (by simpa using hd)) (fun _ => hdep)
    · refine ⟨hlim, ?_, h.trace⟩
      intro x hx hpass
      simp only [List.mem_append, List.mem_map] at hx
      rcases hx with hx | ⟨link, _, rfl⟩
      · rcases List.mem_or_eq_of_mem_set hx with hx | rfl
        · exact h.pool x hx hpass
        · exact hdep
      · simp [Stage.passed] at hpass
    · split
      · exact advance_depthInv h rfl rfl (fun u d hd => Or.inl hd) (by simp [Stage.passed])
      · exact h

theorem run_depthInv (env : Env) (L : Int) (sched : List Nat) :
    ∀ m : Machine, DepthInv L m → DepthInv L (Machine.run env sched m) := by
  induction sched with
  | nil => intro m h; exact h
  | cons i rest ih => intro m h; exact ih _ (step_depthInv env L i m h)

theorem startCall_depthInv (c : Crawler) (pageURL : String) (depth : Int) :
    DepthInv c.DepthLimit (startCall c pageURL depth) where
  limit := rfl
  pool := by simp [startCall, Stage.passed]
  trace := by simp [startCall]

/-! ## Every step keeps a blocked URL blocked, unless a call for it is in flight -/

theorem advance_blockedInv {u : String} {c0 : Crawler} {m m2 : Machine} {i : Nat}
    {g : Goroutine} {st : Stage}
    (h : BlockedInv u c0 m) (hc : m2.c.FailureCount u = m.c.FailureCount u)
    (hm : m2.c.MaxFailures = m.c.MaxFailures) (hp : m2.pool = m.pool)
    (hr : Event.robots u ∈ m2.trace → Event.robots u ∈ m.trace)
    (hf : u ∈ fetched m2.trace → u ∈ fetched m.trace)
    (hst : g.pageURL = u → st.beforeMark = true) : BlockedInv u c0 (m2.advance i g st) where
  count := by simpa [Machine.advance, hc] using h.count
  maxf := by simpa [Machine.advance, hm] using h.maxf
  pool := by
    intro x hx hu
    rcases mem_advance hx with hx | rfl
    · exact h.pool x (hp ▸ hx) hu
    · exact hst hu
  robots := fun hmem => h.robots (hr (by simpa [Machine.advance] using hmem))
  fetch := fun hmem => h.fetch (hf (by simpa [Machine.advance] using hmem))

theorem step_blockedInv (env : Env) (u : String) (c0 : Crawler)
    (hb : c0.FailureCount u ≥ c0.MaxFailures) (i : Nat) (m : Machine)
    (h : BlockedInv u c0 m) : BlockedInv u c0 (Machine.step env i m) := by
  unfold Machine.step
  split
  · exact h
  · rename_i g hg
    have hmem : g ∈ m.pool := List.get?_mem hg
    have hstage := h.pool g hmem
    split
    all_goals rename_i hs
    all_goals rw [hs] at hstage
    · exact advance_blockedInv h rfl rfl rfl id id (fun _ => by split <;> rfl)
    · exact advance_blockedInv h rfl rfl rfl id id (fun _ => by split <;> rfl)
    · refine advance_blockedInv h rfl rfl rfl id id (fun hu => ?_)
      have : isBlocked m.c g.pageURL = true := by
        rw [hu]
        simp only [isBlocked, decide_eq_true_eq, h.count, h.maxf]
        exact hb
      rw [if_pos this]; rfl
    all_goals first
      | exact h
      | have hne : g.pageURL ≠ u := fun hu => by simpa [Stage.beforeMark] using hstage hu
    · exact advance_blockedInv h rfl rfl rfl id id (fun hu => absurd hu hne)
    · refine advance_blockedInv h rfl rfl rfl ?_ ?_ (fun hu => absurd hu hne)
      · intro hmem; simpa using hmem
      · intro hmem; simpa [fetched_append, fetched] using hmem
    · refine advance_blockedInv h rfl rfl rfl ?_ ?_ (fun hu => absurd hu hne)
      · intro hmem
        simp only [List.mem_append, List.mem_singleton, Event.robots.injEq] at hmem
        rcases hmem with hmem | hmem
        · exact hmem
        · exact absurd hmem.symm hne
      · intro hmem; simpa [fetched_append, fetched] using hmem
    · refine advance_blockedInv h ?_ rfl rfl id id (fun hu => absurd hu hne)
      simp [incrementFailure, Ne.symm hne]
    · refine advance_blockedInv h rfl rfl rfl ?_ ?_ (fun hu => absurd hu hne)
      · intro hmem; simpa using hmem
      · intro hmem
        simp only [fetched_append, fetched, List.mem_append, List.mem_singleton] at hmem
        rcases hmem with hmem | hmem
        · exact hmem
        · exact absurd hmem.symm hne
    · refine advance_blockedInv h ?_ rfl rfl id id (fun hu => absurd hu hne)
      simp [incrementFailure, Ne.symm hne]
    · refine advance_blockedInv h ?_ rfl rfl id id (fun hu => absurd hu hne)
      simp [resetFailure, Ne.symm hne]
    · refine advance_blockedInv h rfl rfl rfl ?_ ?_ (fun hu => absurd hu hne)
      · intro hmem; simpa using hmem
      · intro hmem; simpa [fetched_append, fetched] using hmem
    · refine ⟨h.count, h.maxf, ?_, h.robots, h.fetch⟩
      intro x hx hu
      simp only [List.mem_append, List.mem_map] at hx
      rcases hx with hx | ⟨link, _, rfl⟩
      · rcases List.mem_or_eq_of_mem_set hx with hx | rfl
        · exact h.pool x hx hu
        · exact absurd hu hne
      · rfl
    · split
      · exact advance_blockedInv h rfl rfl rfl id id (fun _ => rfl)
      · exact h

theorem run_blockedInv (env : Env) (u : String) (c0 : Crawler)
    (hb : c0.FailureCount u ≥ c0.MaxFailures) (sched : List Nat) :
    ∀ m : Machine, BlockedInv u c0 m → BlockedInv u c0 (Machine.run env sched m) := by
  induction sched with
  | nil => intro m h; exact h
  | cons i rest ih => intro m h; exact ih _ (step_blockedInv env u c0 hb i m h)

/-- Calls made one after another, from a crawler in which `u` is blocked: under
any schedules the count of `u` stays, and `u` gets no robots check and no fetch. -/
theorem runCalls_blocked (env : Env) (u : String) (c0 : Crawler)
    (hb : c0.FailureCount u ≥ c0.MaxFailures) (calls : List (List Nat × String × Int)) :
    ∀ acc : Crawler × List Event,
      acc.1.FailureCount u = c0.FailureCount u → acc.1.MaxFailures = c0.MaxFailures →
      Event.robots u ∉ acc.2 → u ∉ fetched acc.2 →
      (runCalls env calls acc).1.FailureCount u = c0.FailureCount u ∧
      (runCalls env calls acc).1.MaxFailures = c0.MaxFailures ∧
      Event.robots u ∉ (runCalls env calls acc).2 ∧ u ∉ fetched (runCalls env calls acc).2 := by
  induction calls with
  | nil => intro acc h1 h2 h3 h4; exact ⟨h1, h2, h3, h4⟩
  | cons call calls ih =>
    intro acc h1 h2 h3 h4
    have hb2 : acc.1.FailureCount u ≥ acc.1.MaxFailures := by rw [h1, h2]; exact hb
    have hinv := run_blockedInv env u acc.1 hb2 call.1 (startCall acc.1 call.2.1 call.2.2)
      ⟨rfl, rfl, by simp [startCall, Stage.beforeMark], by simp [startCall],
        by simp [startCall, fetched]⟩
    have step := ih ((StartCrawling env call.1 acc.1 call.2.1 call.2.2).c,
      acc.2 ++ (StartCrawling env call.1 acc.1 call.2.1 call.2.2).trace)
      (hinv.count.trans h1) (hinv.maxf.trans h2)
      (by
        intro hmem
        rcases List.mem_append.mp hmem with hmem | hmem
        · exact h3 hmem
        · exact hinv.robots hmem)
      (by
        intro hmem
        rw [fetched_append] at hmem
        rcases List.mem_append.mp hmem with hmem | hmem
        · exact h4 hmem
        · exact hinv.fetch hmem)
    simpa [runCalls] using step

/-! ## Calls that start no goroutine -/

theorem step_out_of_pool (env : Env) (i : Nat) (m : Machine) (h : m.pool.length ≤ i) :
    Machine.step env i m = m := by
  unfold Machine.step
  rw [List.get?_eq_none.mpr h]

theorem run_solo (env : Env) (s : Machine) (n : Nat)
    (hsolo : ∀ k, k ≤ n → (((Machine.step env 0)^[k]) s).pool.length = 1)
    (hlast : Machine.step env 0 (((Machine.step env 0)^[n]) s) = ((Machine.step env 0)^[n]) s) :
    ∀ (sched : List Nat) (k : Nat), k ≤ n →
      Machine.run env sched (((Machine.step env 0)^[k]) s)
        = ((Machine.step env 0)^[min n (k + sched.count 0)]) s := by
  intro sched
  induction sched with
  | nil => intro k hk; simp [Machine.run, Nat.min_eq_right hk]
  | cons i rest ih =>
    intro k hk
    simp only [Machine.run]
    by_cases hi : i = 0
    · subst hi
      rcases Nat.lt_or_ge k n with hlt | hge
      · rw [← Function.iterate_succ_apply' (Machine.step env 0) k s, ih (k + 1) hlt]
        congr 1
        simp only [List.count_cons_self]
        omega
      · have hkn : k = n := by omega
        subst hkn
        rw [hlast, ih k (le_refl _)]
        congr 1
        simp only [List.count_cons_self]
        omega
    · have hlen := hsolo k hk
      rw [step_out_of_pool env i _ (by omega), ih k hk]
      congr 1
      rw [List.count_cons_of_ne (Ne.symm hi)]

theorem StartCrawling_solo (env : Env) (c : Crawler) (pageURL : String) (depth : Int) (n : Nat)
    (hsolo : ∀ k, k ≤ n →
      (((Machine.step env 0)^[k]) (startCall c pageURL depth)).pool.length = 1)
    (hlast : Machine.step env 0 (((Machine.step env 0)^[n]) (startCall c pageURL depth))
      = ((Machine.step env 0)^[n]) (startCall c pageURL depth))
    (sched : List Nat) :
    StartCrawling env sched c pageURL depth
      = ((Machine.step env 0)^[min n (sched.count 0)]) (startCall c pageURL depth) := by
  have := run_solo env (startCall c pageURL depth) n hsolo hlast sched 0 (Nat.zero_le _)
  simpa [StartCrawling] using this

/-- A call that fails one of the three guards: what its first three steps do. -/
theorem guard_iterates (env : Env) (c : Crawler) (pageURL : String) (depth : Int)
    (h : depth > c.DepthLimit ∨ isVisited c pageURL = true ∨ isBlocked c pageURL = true)
    (k : Nat) (hk : k ≤ 3) :
    ∃ st, ((Machine.step env 0)^[k]) (startCall c pageURL depth)
        = ⟨c, [], [⟨pageURL, depth, st, none⟩]⟩ ∧
      (k = 3 → st = Stage.returned) ∧ (depth > c.DepthLimit → 1 ≤ k → st = Stage.returned) := by
  by_cases hd : depth > c.DepthLimit
  · interval_cases k <;>
      simp [Function.iterate_succ, startCall, Machine.step, Machine.advance, hd]
  · by_cases hv : isVisited c pageURL = true
    · interval_cases k <;>
        simp [Function.iterate_succ, startCall, Machine.step, Machine.advance, hd, hv]
    · have hb : isBlocked c pageURL = true := by
        rcases h with h | h | h
        · exact absurd h hd
        · exact absurd h hv
        · exact h
      interval_cases k <;>
        simp [Function.iterate_succ, startCall, Machine.step, Machine.advance, hd, hv, hb]

/-- A call that fails one of the three guards leaves the crawler as it is, makes
no call to the outside under any schedule, and has returned once it has taken
three steps (one step when the depth is over the limit). -/
theorem StartCrawling_guard (env : Env) (sched : List Nat) (c : Crawler) (pageURL : String)
    (depth : Int)
    (h : depth > c.DepthLimit ∨ isVisited c pageURL = true ∨ isBlocked c pageURL = true) :
    (StartCrawling env sched c pageURL depth).c = c ∧
    (StartCrawling env sched c pageURL depth).trace = [] ∧
    (3 ≤ sched.count 0 → (StartCrawling env sched c pageURL depth).returned = true) ∧
    (depth > c.DepthLimit → 1 ≤ sched.count 0 →
      (StartCrawling env sched c pageURL depth).returned = true) := by
  have hsolo : ∀ k, k ≤ 3 →
      (((Machine.step env 0)^[k]) (startCall c pageURL depth)).pool.length = 1 := by
    intro k hk
    obtain ⟨st, hst, _⟩ := guard_iterates env c pageURL depth h k hk
    rw [hst]; rfl
  have hlast : Machine.step env 0 (((Machine.step env 0)^[3]) (startCall c pageURL depth))
      = ((Machine.step env 0)^[3]) (startCall c pageURL depth) := by
    obtain ⟨st, hst, h3, _⟩ := guard_iterates env c pageURL depth h 3 (le_refl _)
    rw [hst, h3 rfl]
    simp [Machine.step]
  rw [StartCrawling_solo env c pageURL depth 3 hsolo hlast sched]
  obtain ⟨st, hst, h3, h1⟩ :=
    guard_iterates env c pageURL depth h (min 3 (sched.count 0)) (Nat.min_le_left _ _)
  rw [hst]
  refine ⟨rfl, rfl, ?_, ?_⟩
  · intro hc
    rw [h3 (by omega)]; rfl
  · intro hd hc
    rw [h1 hd (by omega)]; rfl

theorem failing_iterates (env : Env) (c : Crawler) (X : String) (depth : Int)
    (hd : ¬ depth > c.DepthLimit) (hv : c.VisitedURLs X = false)
    (hb : c.FailureCount X < c.MaxFailures)
    (hr : env.robots X = true) (hf : ∀ tr c2, env.fetch tr c2 X = none) (k : Nat) (hk : k ≤ 8) :
    ∃ c2 tr st, ((Machine.step env 0)^[k]) (startCall c X depth)
        = ⟨c2, tr, [⟨X, depth, st, none⟩]⟩ ∧
      (k = 8 → c2 = incrementFailure (markVisited c X) X ∧
        tr = [Event.log X, Event.robots X, Event.fetch X depth] ∧ st = Stage.returned) := by
  have h0 : ¬ c.MaxFailures ≤ c.FailureCount X := by omega
  interval_cases k <;>
    simp [Function.iterate_succ, startCall, Machine.step, Machine.advance, isVisited, isBlocked,
      hd, hv, h0, hr, hf]
  exact ⟨_, _, _, ⟨rfl, rfl, rfl⟩, rfl, rfl, rfl⟩

/-- A call for an unvisited, unblocked URL whose fetch fails: once it has taken
its eight steps it has returned, having made one fetch and counted one failure. -/
theorem StartCrawling_failing (env : Env) (sched : List Nat) (c : Crawler) (X : String)
    (depth : Int) (hd : ¬ depth > c.DepthLimit) (hv : c.VisitedURLs X = false)
    (hb : c.FailureCount X < c.MaxFailures)
    (hr : env.robots X = true) (hf : ∀ tr c2, env.fetch tr c2 X = none)
    (hs : 8 ≤ sched.count 0) :
    StartCrawling env sched c X depth
      = ⟨incrementFailure (markVisited c X) X,
          [Event.log X, Event.robots X, Event.fetch X depth],
          [⟨X, depth, Stage.returned, none⟩]⟩ := by
  have hsolo : ∀ k, k ≤ 8 →
      (((Machine.step env 0)^[k]) (startCall c X depth)).pool.length = 1 := by
    intro k hk
    obtain ⟨c2, tr, st, hst, _⟩ := failing_iterates env c X depth hd hv hb hr hf k hk
    rw [hst]; rfl
  obtain ⟨c2, tr, st, hst, h8⟩ := failing_iterates env c X depth hd hv hb hr hf 8 (le_refl _)
  obtain ⟨rfl, rfl, rfl⟩ := h8 rfl
  have hlast : Machine.step env 0 (((Machine.step env 0)^[8]) (startCall c X depth))
      = ((Machine.step env 0)^[8]) (startCall c X depth) := by
    rw [hst]
    simp [Machine.step]
  rw [StartCrawling_solo env c X depth 8 hsolo hlast sched, Nat.min_eq_left hs, hst]

/-! ## The scenario under every schedule -/

theorem local_step (mF : Int) (hm : 0 < mF) (i : Nat) (m : Machine) (u : String) (dep : Int)
    (st : Stage) (par : Option Nat)
    (hget : m.pool.get? i = some ⟨u, dep, st, par⟩) (hdep : dep ≤ 1)
    (hu : u = "A" ∨ u = "B" ∨ u = "C")
    (hg : Glob mF m.c m.trace) (hl : Link u st m.c m.trace) (he : st.early = true) :
    ∃ c2 tr2 st2, Machine.step (Env.ofGraph scenarioGraph) i m
        = ⟨c2, tr2, m.pool.set i ⟨u, dep, st2, par⟩⟩ ∧
      Glob mF c2 tr2 ∧ Link u st2 c2 tr2 ∧
      (st2.early = true ∨ st2 = Stage.spawn (scenarioPage u)) ∧
      (∀ v sv, v ≠ u → Link v sv m.c m.trace → Link v sv c2 tr2) := by
  obtain ⟨c, tr, pool⟩ := m
  obtain ⟨hlim, hmax, hcnt, hnd, hkn⟩ := hg
  obtain ⟨hvis, hfet, hok⟩ := hl
  simp only at hget hlim hmax hcnt hnd hkn hvis hfet
  unfold Machine.step
  simp only [hget]
  cases st <;> simp only [Stage.early] at he <;> try exact absurd he (by decide)
  case depthCheck =>
    refine ⟨c, tr, Stage.visitedCheck, ?_, ⟨hlim, hmax, hcnt, hnd, hkn⟩, ⟨hvis, hfet, trivial⟩,
      Or.inl rfl, fun v sv _ h => h⟩
    have : ¬ dep > 1 := by omega
    simp [Machine.advance, hlim, this]
  case visitedCheck =>
    refine ⟨c, tr, Stage.blockedCheck, ?_, ⟨hlim, hmax, hcnt, hnd, hkn⟩, ⟨hvis, hfet, trivial⟩,
      Or.inl rfl, fun v sv _ h => h⟩
    have : c.VisitedURLs u = false := hvis
    simp [Machine.advance, isVisited, this]
  case blockedCheck =>
    refine ⟨c, tr, Stage.mark, ?_, ⟨hlim, hmax, hcnt, hnd, hkn⟩, ⟨hvis, hfet, trivial⟩,
      Or.inl rfl, fun v sv _ h => h⟩
    have : ¬ mF ≤ 0 := by omega
    simp [Machine.advance, isBlocked, hcnt, hmax, this]
  case mark =>
    refine ⟨markVisited c u, tr, Stage.logURL, rfl, ⟨hlim, hmax, hcnt, hnd, hkn⟩,
      ⟨by simp [markVisited, Stage.pastMark], hfet, trivial⟩, Or.inl rfl, ?_⟩
    intro v sv hv h
    exact ⟨by simpa [markVisited, hv] using h.visited, h.fetched, h.ok⟩
  case logURL =>
    refine ⟨c, tr ++ [Event.log u], Stage.robots, rfl, ⟨hlim, hmax, hcnt, ?_, ?_⟩,
      ⟨hvis, ?_, trivial⟩, Or.inl rfl, ?_⟩
    · simpa [fetched_append, fetched] using hnd
    · simpa [fetched_append, fetched] using hkn
    · simpa [fetched_append, fetched] using hfet
    · intro v sv hv h
      exact ⟨h.visited, by simpa [fetched_append, fetched] using h.fetched, h.ok⟩
  case robots =>
    refine ⟨c, tr ++ [Event.robots u], Stage.fetch, ?_, ⟨hlim, hmax, hcnt, ?_, ?_⟩,
      ⟨hvis, ?_, trivial⟩, Or.inl rfl, ?_⟩
    · simp [Machine.advance, Env.ofGraph]
    · simpa [fetched_append, fetched] using hnd
    · simpa [fetched_append, fetched] using hkn
    · simpa [fetched_append, fetched] using hfet
    · intro v sv hv h
      exact ⟨h.visited, by simpa [fetched_append, fetched] using h.fetched, h.ok⟩
  case fetch =>
    have hnot : u ∉ fetched tr := by
      intro h
      have := hfet.mp h
      simp [Stage.pastFetch] at this
    refine ⟨c, tr ++ [Event.fetch u dep], Stage.reset (scenarioPage u), ?_,
      ⟨hlim, hmax, hcnt, ?_, ?_⟩, ⟨hvis, ?_, rfl⟩, Or.inl rfl, ?_⟩
    · simp [Machine.advance, Env.ofGraph, scenarioPage]
    · simp only [fetched_append, fetched]
      exact List.Nodup.append hnd (List.nodup_singleton u) (by simpa using hnot)
    · intro v hv
      simp only [fetched_append, fetched, List.mem_append, List.mem_singleton] at hv
      rcases hv with hv | rfl
      · exact hkn v hv
      · exact hu
    · simp [fetched_append, fetched, Stage.pastFetch]
    · intro v sv hv h
      refine ⟨h.visited, ?_, h.ok⟩
      rw [← h.fetched]
      simp [fetched_append, fetched, hv]
  case reset p =>
    refine ⟨resetFailure c u, tr, Stage.index p, rfl, ⟨hlim, hmax, ?_, hnd, hkn⟩,
      ⟨hvis, hfet, hok⟩, Or.inl rfl, ?_⟩
    · intro v
      simp only [resetFailure]
      split
      · rfl
      · exact hcnt v
    · intro v sv hv h
      exact ⟨h.visited, h.fetched, h.ok⟩
  case index p =>
    have hp : p = scenarioPage u := hok
    subst hp
    refine ⟨c, tr ++ [Event.index ⟨u, "", "", "", []⟩], Stage.spawn (scenarioPage u), ?_,
      ⟨hlim, hmax, hcnt, ?_, ?_⟩, ⟨hvis, ?_, rfl⟩, Or.inr rfl, ?_⟩
    · simp [Machine.advance, Env.ofGraph, scenarioPage]
    · simpa [fetched_append, fetched] using hnd
    · simpa [fetched_append, fetched] using hkn
    · simpa [fetched_append, fetched, Stage.pastFetch] using hfet
    · intro v sv hv h
      exact ⟨h.visited, by simpa [fetched_append, fetched] using h.fetched, h.ok⟩

theorem Stage.isReturned_iff (st : Stage) : st.isReturned = true ↔ st = Stage.returned := by
  cases st <;> simp [Stage.isReturned]

theorem not_returned_of_early (st : Stage) (p : Page)
    (h : st.early = true ∨ st = Stage.spawn p) : st ≠ Stage.returned ∧ st ≠ Stage.wait := by
  rcases h with h | rfl
  · cases st <;> simp [Stage.early] at h ⊢
  · simp

/-- The step of the goroutine of `C`, which sits at position 2 and starts no child. -/
theorem step_C (mF : Int) (hm : 0 < mF) (c : Crawler) (tr : List Event) (gA gB : Goroutine)
    (rest : List Goroutine) (cc : Stage)
    (hpar : gA.parent ≠ some 2 ∧ gB.parent ≠ some 2 ∧ ∀ t, t ∈ rest → t.parent ≠ some 2)
    (hg : Glob mF c tr) (hc : Link "C" cc c tr) (hcs : lateOk cc) :
    ∃ c2 tr2 cc2, Machine.step (Env.ofGraph scenarioGraph) 2
        ⟨c, tr, gA :: gB :: ⟨"C", 1, cc, some 0⟩ :: rest⟩
        = ⟨c2, tr2, gA :: gB :: ⟨"C", 1, cc2, some 0⟩ :: rest⟩ ∧
      Glob mF c2 tr2 ∧ Link "C" cc2 c2 tr2 ∧ lateOk cc2 ∧ (cc = Stage.returned → cc2 = cc) ∧
      (∀ v sv, v ≠ "C" → Link v sv c tr → Link v sv c2 tr2) := by
  rcases hcs with he | rfl | rfl | rfl
  · obtain ⟨c2, tr2, cc2, heq, hg2, hc2, hshape2, hframe⟩ :=
      local_step mF hm 2 ⟨c, tr, gA :: gB :: ⟨"C", 1, cc, some 0⟩ :: rest⟩ "C" 1 cc (some 0) rfl
        (by decide) (Or.inr (Or.inr rfl)) hg hc he
    refine ⟨c2, tr2, cc2, by simpa using heq, hg2, hc2, ?_, ?_, hframe⟩
    · rcases hshape2 with h | h
      · exact Or.inl h
      · exact Or.inr (Or.inl h)
    · rintro rfl
      simp [Stage.early] at he
  · refine ⟨c, tr, Stage.wait, ?_, hg, ⟨hc.visited, hc.fetched, trivial⟩, Or.inr (Or.inr (Or.inl rfl)),
      by simp, fun v sv _ h => h⟩
    simp [Machine.step, scenarioPage, scenarioGraph]
  · refine ⟨c, tr, Stage.returned, ?_, hg, ⟨hc.visited, hc.fetched, trivial⟩,
      Or.inr (Or.inr (Or.inr rfl)), by simp, fun v sv _ h => h⟩
    have h1 := hpar.1
    have h2 := hpar.2.1
    have h3 := hpar.2.2
    simp [Machine.step, Machine.advance, h1, h2]
    intro x hx hp
    exact absurd hp (h3 x hx)
  · exact ⟨c, tr, Stage.returned, by simp [Machine.step], hg, hc, Or.inr (Or.inr (Or.inr rfl)),
      fun _ => rfl, fun v sv _ h => h⟩

theorem step_scn (mF : Int) (hm : 0 < mF) (i : Nat) (m : Machine) (h : Scn mF m) :
    Scn mF (Machine.step (Env.ofGraph scenarioGraph) i m) := by
  cases h with
  | one c tr a hg ha hb hc hshape =>
    match i with
    | 0 =>
      rcases hshape with he | rfl
      · obtain ⟨c2, tr2, a2, heq, hg2, ha2, hshape2, hframe⟩ :=
          local_step mF hm 0 ⟨c, tr, [⟨"A", 0, a, none⟩]⟩ "A" 0 a none rfl (by decide)
            (Or.inl rfl) hg ha he
        rw [heq]
        exact Scn.one c2 tr2 a2 hg2 ha2 (hframe "B" _ (by decide) hb)
          (hframe "C" _ (by decide) hc) hshape2
      · have e : Machine.step (Env.ofGraph scenarioGraph) 0
            ⟨c, tr, [⟨"A", 0, Stage.spawn (scenarioPage "A"), none⟩]⟩
            = ⟨c, tr, [⟨"A", 0, Stage.wait, none⟩, ⟨"B", 1, Stage.depthCheck, some 0⟩,
                ⟨"C", 1, Stage.depthCheck, some 0⟩]⟩ := by
          simp [Machine.step, scenarioPage, scenarioGraph, wrapInt]
        rw [e]
        exact Scn.three c tr _ _ hg ⟨ha.visited, ha.fetched, trivial⟩ hb hc (Or.inl rfl)
          (Or.inl rfl)
    | k + 1 =>
      rw [step_out_of_pool _ _ _ (by simp)]
      exact Scn.one c tr a hg ha hb hc hshape
  | three c tr b cc hg ha hb hc hbs hcs =>
    match i with
    | 0 =>
      have hbr := (not_returned_of_early b _ hbs).1
      have e : Machine.step (Env.ofGraph scenarioGraph) 0
          ⟨c, tr, [⟨"A", 0, Stage.wait, none⟩, ⟨"B", 1, b, some 0⟩, ⟨"C", 1, cc, some 0⟩]⟩
          = ⟨c, tr, [⟨"A", 0, Stage.wait, none⟩, ⟨"B", 1, b, some 0⟩,
              ⟨"C", 1, cc, some 0⟩]⟩ := by
        simp [Machine.step, Stage.isReturned_iff, hbr]
      rw [e]
      exact Scn.three c tr b cc hg ha hb hc hbs hcs
    | 1 =>
      rcases hbs with he | rfl
      · obtain ⟨c2, tr2, b2, heq, hg2, hb2, hshape2, hframe⟩ :=
          local_step mF hm 1 ⟨c, tr, [⟨"A", 0, Stage.wait, none⟩, ⟨"B", 1, b, some 0⟩,
            ⟨"C", 1, cc, some 0⟩]⟩ "B" 1 b (some 0) rfl (by decide) (Or.inr (Or.inl rfl)) hg hb he
        rw [heq]
        exact Scn.three c2 tr2 b2 cc hg2 (hframe "A" _ (by decide) ha) hb2
          (hframe "C" _ (by decide) hc) hshape2 hcs
      · have e : Machine.step (Env.ofGraph scenarioGraph) 1
            ⟨c, tr, [⟨"A", 0, Stage.wait, none⟩, ⟨"B", 1, Stage.spawn (scenarioPage "B"), some 0⟩,
              ⟨"C", 1, cc, some 0⟩]⟩
            = ⟨c, tr, [⟨"A", 0, Stage.wait, none⟩, ⟨"B", 1, Stage.wait, some 0⟩,
                ⟨"C", 1, cc, some 0⟩, ⟨"D", 2, Stage.depthCheck, some 1⟩]⟩ := by
          simp [Machine.step, scenarioPage, scenarioGraph, wrapInt]
        rw [e]
        exact Scn.four c tr _ _ cc _ hg ha ⟨hb.visited, hb.fetched, trivial⟩ hc (Or.inl rfl)
          (Or.inl rfl) hcs (Or.inl rfl)
    | 2 =>
      obtain ⟨c2, tr2, cc2, heq, hg2, hc2, hcs2, _, hframe⟩ :=
        step_C mF hm c tr ⟨"A", 0, Stage.wait, none⟩ ⟨"B", 1, b, some 0⟩ [] cc
          (by simp) hg hc hcs
      rw [heq]
      exact Scn.three c2 tr2 b cc2 hg2 (hframe "A" _ (by decide) ha)
        (hframe "B" _ (by decide) hb) hc2 hbs hcs2
    | k + 3 =>
      rw [step_out_of_pool _ _ _ (by simp)]
      exact Scn.three c tr b cc hg ha hb hc hbs hcs
  | four c tr a b cc d hg ha hb hc has hbs hcs hds =>
    match i with
    | 0 =>
      by_cases hret : b = Stage.returned ∧ cc = Stage.returned
      · obtain ⟨rfl, rfl⟩ := hret
        rcases has with rfl | ⟨rfl, _⟩
        · have e : Machine.step (Env.ofGraph scenarioGraph) 0
              ⟨c, tr, [⟨"A", 0, Stage.wait, none⟩, ⟨"B", 1, Stage.returned, some 0⟩,
                ⟨"C", 1, Stage.returned, some 0⟩, ⟨"D", 2, d, some 1⟩]⟩
              = ⟨c, tr, [⟨"A", 0, Stage.returned, none⟩, ⟨"B", 1, Stage.returned, some 0⟩,
                  ⟨"C", 1, Stage.returned, some 0⟩, ⟨"D", 2, d, some 1⟩]⟩ := by
            simp [Machine.step, Machine.advance, Stage.isReturned]
          rw [e]
          exact Scn.four c tr _ _ _ d hg ⟨ha.visited, ha.fetched, trivial⟩ hb hc
            (Or.inr ⟨rfl, rfl, rfl⟩) hbs hcs hds
        · have e : Machine.step (Env.ofGraph scenarioGraph) 0
              ⟨c, tr, [⟨"A", 0, Stage.returned, none⟩, ⟨"B", 1, Stage.returned, some 0⟩,
                ⟨"C", 1, Stage.returned, some 0⟩, ⟨"D", 2, d, some 1⟩]⟩
              = ⟨c, tr, [⟨"A", 0, Stage.returned, none⟩, ⟨"B", 1, Stage.returned, some 0⟩,
                  ⟨"C", 1, Stage.returned, some 0⟩, ⟨"D", 2, d, some 1⟩]⟩ := by
            simp [Machine.step]
          rw [e]
          exact Scn.four c tr _ _ _ d hg ha hb hc (Or.inr ⟨rfl, rfl, rfl⟩) hbs hcs hds
      · have ha2 : a = Stage.wait := by
          rcases has with h | ⟨_, h1, h2⟩
          · exact h
          · exact absurd ⟨h1, h2⟩ hret
        subst ha2
        have e : Machine.step (Env.ofGraph scenarioGraph) 0
            ⟨c, tr, [⟨"A", 0, Stage.wait, none⟩, ⟨"B", 1, b, some 0⟩,
              ⟨"C", 1, cc, some 0⟩, ⟨"D", 2, d, some 1⟩]⟩
            = ⟨c, tr, [⟨"A", 0, Stage.wait, none⟩, ⟨"B", 1, b, some 0⟩,
                ⟨"C", 1, cc, some 0⟩, ⟨"D", 2, d, some 1⟩]⟩ := by
          simp only [not_and] at hret
          simp [Machine.step, Stage.isReturned_iff]
          intro h1 h2
          exact absurd h2 (hret h1)
        rw [e]
        exact Scn.four c tr _ b cc d hg ha hb hc (Or.inl rfl) hbs hcs hds
    | 1 =>
      rcases hbs with rfl | ⟨rfl, rfl⟩
      · have ha2 : a = Stage.wait := by
          rcases has with h | ⟨_, h1, _⟩
          · exact h
          · exact absurd h1 (by simp)
        subst ha2
        rcases hds with rfl | rfl
        · have e : Machine.step (Env.ofGraph scenarioGraph) 1
              ⟨c, tr, [⟨"A", 0, Stage.wait, none⟩, ⟨"B", 1, Stage.wait, some 0⟩,
                ⟨"C", 1, cc, some 0⟩, ⟨"D", 2, Stage.depthCheck, some 1⟩]⟩
              = ⟨c, tr, [⟨"A", 0, Stage.wait, none⟩, ⟨"B", 1, Stage.wait, some 0⟩,
                  ⟨"C", 1, cc, some 0⟩, ⟨"D", 2, Stage.depthCheck, some 1⟩]⟩ := by
            simp [Machine.step, Stage.isReturned]
          rw [e]
          exact Scn.four c tr _ _ cc _ hg ha hb hc (Or.inl rfl) (Or.inl rfl) hcs (Or.inl rfl)
        · have e : Machine.step (Env.ofGraph scenarioGraph) 1
              ⟨c, tr, [⟨"A", 0, Stage.wait, none⟩, ⟨"B", 1, Stage.wait, some 0⟩,
                ⟨"C", 1, cc, some 0⟩, ⟨"D", 2, Stage.returned, some 1⟩]⟩
              = ⟨c, tr, [⟨"A", 0, Stage.wait, none⟩, ⟨"B", 1, Stage.returned, some 0⟩,
                  ⟨"C", 1, cc, some 0⟩, ⟨"D", 2, Stage.returned, some 1⟩]⟩ := by
            simp [Machine.step, Machine.advance, Stage.isReturned]
          rw [e]
          exact Scn.four c tr _ _ cc _ hg ha ⟨hb.visited, hb.fetched, trivial⟩ hc (Or.inl rfl)
            (Or.inr ⟨rfl, rfl⟩) hcs (Or.inr rfl)
      · have e : Machine.step (Env.ofGraph scenarioGraph) 1
            ⟨c, tr, [⟨"A", 0, a, none⟩, ⟨"B", 1, Stage.returned, some 0⟩,
              ⟨"C", 1, cc, some 0⟩, ⟨"D", 2, Stage.returned, some 1⟩]⟩
            = ⟨c, tr, [⟨"A", 0, a, none⟩, ⟨"B", 1, Stage.returned, some 0⟩,
                ⟨"C", 1, cc, some 0⟩, ⟨"D", 2, Stage.returned, some 1⟩]⟩ := by
          simp [Machine.step]
        rw [e]
        exact Scn.four c tr a _ cc _ hg ha hb hc has (Or.inr ⟨rfl, rfl⟩) hcs hds
    | 2 =>
      obtain ⟨c2, tr2, cc2, heq, hg2, hc2, hcs2, hsame, hframe⟩ :=
        step_C mF hm c tr ⟨"A", 0, a, none⟩ ⟨"B", 1, b, some 0⟩ [⟨"D", 2, d, some 1⟩] cc
          (by simp) hg hc hcs
      rw [heq]
      refine Scn.four c2 tr2 a b cc2 d hg2 (hframe "A" _ (by decide) ha)
        (hframe "B" _ (by decide) hb) hc2 ?_ hbs hcs2 hds
      rcases has with h | ⟨h1, h2, h3⟩
      · exact Or.inl h
      · exact Or.inr ⟨h1, h2, (hsame h3).trans h3⟩
    | 3 =>
      rcases hds with rfl | rfl
      · have hb2 : b = Stage.wait := by
          rcases hbs with h | ⟨_, h⟩
          · exact h
          · exact absurd h (by simp)
        have hlim := hg.limit
        have e : Machine.step (Env.ofGraph scenarioGraph) 3
            ⟨c, tr, [⟨"A", 0, a, none⟩, ⟨"B", 1, b, some 0⟩,
              ⟨"C", 1, cc, some 0⟩, ⟨"D", 2, Stage.depthCheck, some 1⟩]⟩
            = ⟨c, tr, [⟨"A", 0, a, none⟩, ⟨"B", 1, b, some 0⟩,
                ⟨"C", 1, cc, some 0⟩, ⟨"D", 2, Stage.returned, some 1⟩]⟩ := by
          simp [Machine.step, Machine.advance, hlim]
        rw [e]
        exact Scn.four c tr a b cc _ hg ha hb hc has (Or.inl hb2) hcs (Or.inr rfl)
      · have e : Machine.step (Env.ofGraph scenarioGraph) 3
            ⟨c, tr, [⟨"A", 0, a, none⟩, ⟨"B", 1, b, some 0⟩,
              ⟨"C", 1, cc, some 0⟩, ⟨"D", 2, Stage.returned, some 1⟩]⟩
            = ⟨c, tr, [⟨"A", 0, a, none⟩, ⟨"B", 1, b, some 0⟩,
                ⟨"C", 1, cc, some 0⟩, ⟨"D", 2, Stage.returned, some 1⟩]⟩ := by
          simp [Machine.step]
        rw [e]
        exact Scn.four c tr a b cc _ hg ha hb hc has hbs hcs (Or.inr rfl)
    | k + 4 =>
      rw [step_out_of_pool _ _ _ (by simp)]
      exact Scn.four c tr a b cc d hg ha hb hc has hbs hcs hds

theorem run_scn (mF : Int) (hm : 0 < mF) (sched : List Nat) :
    ∀ m : Machine, Scn mF m → Scn mF (Machine.run (Env.ofGraph scenarioGraph) sched m) := by
  induction sched with
  | nil => intro m h; exact h
  | cons i rest ih => intro m h; exact ih _ (step_scn mF hm i m h)

theorem startCall_scn (mF : Int) : Scn mF (startCall (NewCrawler 1 mF) "A" 0) := by
  refine Scn.one _ _ _ ⟨rfl, rfl, fun _ => rfl, ?_, ?_⟩ ⟨rfl, ?_, trivial⟩ ⟨rfl, ?_, trivial⟩
    ⟨rfl, ?_, trivial⟩ (Or.inl rfl)
  all_goals simp [fetched, Stage.pastFetch]

/-- In every state of the scenario `D` has not been fetched, and once the call
has returned the fetched URLs are `A`, `B` and `C`, each once. -/
theorem scn_result (mF : Int) (m : Machine) (h : Scn mF m) :
    "D" ∉ fetched m.trace ∧
    (m.returned = true → (fetched m.trace).Perm ["A", "B", "C"]) := by
  have key : ∀ (c : Crawler) (tr : List Event), Glob mF c tr → "D" ∉ fetched tr := by
    intro c tr hg hD
    have := hg.known "D" hD
    simp at this
  cases h with
  | one c tr a hg ha hb hc hshape =>
    refine ⟨key c tr hg, ?_⟩
    intro hret
    have := (not_returned_of_early a _ hshape).1
    simp [Machine.returned, Stage.isReturned_iff, this] at hret
  | three c tr b cc hg ha hb hc hbs hcs =>
    refine ⟨key c tr hg, ?_⟩
    intro hret
    simp [Machine.returned, Stage.isReturned] at hret
  | four c tr a b cc d hg ha hb hc has hbs hcs hds =>
    refine ⟨key c tr hg, ?_⟩
    intro hret
    simp only [Machine.returned, Stage.isReturned_iff] at hret
    subst hret
    rcases has with h | ⟨_, rfl, rfl⟩
    · simp at h
    · have hA := ha.fetched.mpr rfl
      have hB := hb.fetched.mpr rfl
      have hC := hc.fetched.mpr rfl
      rw [List.perm_ext_iff_of_nodup hg.nodup (by decide)]
      intro u
      constructor
      · intro hu
        rcases hg.known u hu with rfl | rfl | rfl <;> simp
      · intro hu
        simp only [List.mem_cons, List.mem_singleton, List.not_mem_nil, or_false] at hu
        rcases hu with rfl | rfl | rfl <;> assumption

/-! ## The scenario under the depth-first schedule -/

theorem run_append (env : Env) (s1 s2 : List Nat) :
    ∀ m : Machine, Machine.run env (s1 ++ s2) m = Machine.run env s2 (Machine.run env s1 m) := by
  induction s1 with
  | nil => intro m; rfl
  | cons i rest ih => intro m; simp [Machine.run, ih]

/-- The ten steps of `A`, from the call to the start of its children. -/
theorem depthFirst_phase1 (c : Crawler) (hl : c.DepthLimit = 1)
    (hv : c.VisitedURLs "A" = false) (hb : c.FailureCount "A" < c.MaxFailures) :
    Machine.run (Env.ofGraph scenarioGraph) [0, 0, 0, 0, 0, 0, 0, 0, 0, 0] (startCall c "A" 0)
      = ⟨resetFailure (markVisited c "A") "A",
          [Event.log "A", Event.robots "A", Event.fetch "A" 0, Event.index ⟨"A", "", "", "", []⟩],
          [⟨"A", 0, Stage.wait, none⟩, ⟨"B", 1, Stage.depthCheck, some 0⟩,
            ⟨"C", 1, Stage.depthCheck, some 0⟩]⟩ := by
  have h0 : ¬ c.MaxFailures ≤ c.FailureCount "A" := by omega
  simp [startCall, Machine.run, Machine.step, Machine.advance, isVisited, isBlocked,
    Env.ofGraph, scenarioGraph, wrapInt, hl, hv, h0]

/-- The ten steps of `B`, the step of its child `D`, and the return of `B`. -/
theorem depthFirst_phase2 (c : Crawler) (tr : List Event) (cc : Stage) (hl : c.DepthLimit = 1)
    (hv : c.VisitedURLs "B" = false) (hb : c.FailureCount "B" < c.MaxFailures) :
    Machine.run (Env.ofGraph scenarioGraph) [1, 1, 1, 1, 1, 1, 1, 1, 1, 1, 3, 1]
        ⟨c, tr, [⟨"A", 0, Stage.wait, none⟩, ⟨"B", 1, Stage.depthCheck, some 0⟩,
          ⟨"C", 1, cc, some 0⟩]⟩
      = ⟨resetFailure (markVisited c "B") "B",
          tr ++ [Event.log "B", Event.robots "B", Event.fetch "B" 1,
            Event.index ⟨"B", "", "", "", []⟩],
          [⟨"A", 0, Stage.wait, none⟩, ⟨"B", 1, Stage.returned, some 0⟩,
            ⟨"C", 1, cc, some 0⟩, ⟨"D", 2, Stage.returned, some 1⟩]⟩ := by
  have h0 : ¬ c.MaxFailures ≤ c.FailureCount "B" := by omega
  simp [Machine.run, Machine.step, Machine.advance, isVisited, isBlocked,
    Env.ofGraph, scenarioGraph, wrapInt, Stage.isReturned, hl, hv, h0, markVisited, resetFailure]

/-- The eleven steps of `C` and the return of `A`. -/
theorem depthFirst_phase3 (c : Crawler) (tr : List Event) (hl : c.DepthLimit = 1)
    (hv : c.VisitedURLs "C" = false) (hb : c.FailureCount "C" < c.MaxFailures) :
    Machine.run (Env.ofGraph scenarioGraph) [2, 2, 2, 2, 2, 2, 2, 2, 2, 2, 2, 0]
        ⟨c, tr, [⟨"A", 0, Stage.wait, none⟩, ⟨"B", 1, Stage.returned, some 0⟩,
          ⟨"C", 1, Stage.depthCheck, some 0⟩, ⟨"D", 2, Stage.returned, some 1⟩]⟩
      = ⟨resetFailure (markVisited c "C") "C",
          tr ++ [Event.log "C", Event.robots "C", Event.fetch "C" 1,
            Event.index ⟨"C", "", "", "", []⟩],
          [⟨"A", 0, Stage.returned, none⟩, ⟨"B", 1, Stage.returned, some 0⟩,
            ⟨"C", 1, Stage.returned, some 0⟩, ⟨"D", 2, Stage.returned, some 1⟩]⟩ := by
  have h0 : ¬ c.MaxFailures ≤ c.FailureCount "C" := by omega
  simp [Machine.run, Machine.step, Machine.advance, isVisited, isBlocked,
    Env.ofGraph, scenarioGraph, wrapInt, Stage.isReturned, hl, hv, h0, markVisited, resetFailure]

theorem depthFirst_run (mF : Int) (hm : 0 < mF) :
    (StartCrawling (Env.ofGraph scenarioGraph) depthFirst (NewCrawler 1 mF) "A" 0).returned
      = true ∧
    fetched (StartCrawling (Env.ofGraph scenarioGraph) depthFirst (NewCrawler 1 mF) "A" 0).trace
      = ["A", "B", "C"] := by
  have e : depthFirst = [0, 0, 0, 0, 0, 0, 0, 0, 0, 0] ++
      ([1, 1, 1, 1, 1, 1, 1, 1, 1, 1, 3, 1] ++ [2, 2, 2, 2, 2, 2, 2, 2, 2, 2, 2, 0]) := rfl
  rw [StartCrawling, e, run_append, run_append,
    depthFirst_phase1 _ rfl rfl (by simpa [NewCrawler] using hm),
    depthFirst_phase2 _ _ _ rfl (by simp [resetFailure, markVisited, NewCrawler])
      (by simpa [resetFailure, markVisited, NewCrawler] using hm),
    depthFirst_phase3 _ _ rfl (by simp [resetFailure, markVisited, NewCrawler])
      (by simpa [resetFailure, markVisited, NewCrawler] using hm)]
  simp [Machine.returned, Stage.isReturned, fetched]

/-! ## The crawl engine: claims C1 to C5 -/

/-- Claim C2: under every schedule, every fetch of a crawl is made by a call
whose depth argument is at most `DepthLimit`; a call with a larger depth makes
no call to the outside, leaves the crawler unchanged, and has returned after
its first step.  In the web where `A` links to `B` and `C` and `B` links to
`D`, crawled from `A` at depth 0 with `DepthLimit = 1` and a positive
`MaxFailures`: under every schedule `D` is not fetched, and once the call has
returned the fetched URLs are `A`, `B` and `C`, each once; and the call does
return, with the fetches in the order `A`, `B`, `C`, under the schedule that
runs the goroutines one after another. -/
theorem StartCrawling_respects_depth_limit (env : Env) (sched : List Nat) (c : Crawler)
    (seed : String) (depth : Int) :
    (∀ u d, Event.fetch u d ∈ (StartCrawling env sched c seed depth).trace →
      d ≤ c.DepthLimit) ∧
    (depth > c.DepthLimit →
      (StartCrawling env sched c seed depth).c = c ∧
      (StartCrawling env sched c seed depth).trace = [] ∧
      (1 ≤ sched.count 0 → (StartCrawling env sched c seed depth).returned = true)) ∧
    (∀ maxFailures : Int, 0 < maxFailures →
      "D" ∉ fetched (StartCrawling (Env.ofGraph scenarioGraph) sched
        (NewCrawler 1 maxFailures) "A" 0).trace ∧
      ((StartCrawling (Env.ofGraph scenarioGraph) sched
          (NewCrawler 1 maxFailures) "A" 0).returned = true →
        (fetched (StartCrawling (Env.ofGraph scenarioGraph) sched
          (NewCrawler 1 maxFailures) "A" 0).trace).Perm ["A", "B", "C"]) ∧
      (StartCrawling (Env.ofGraph scenarioGraph) depthFirst
        (NewCrawler 1 maxFailures) "A" 0).returned = true ∧
      fetched (StartCrawling (Env.ofGraph scenarioGraph) depthFirst
        (NewCrawler 1 maxFailures) "A" 0).trace = ["A", "B", "C"]) := by
  refine ⟨?_, ?_, ?_⟩
  · exact (run_depthInv env c.DepthLimit sched _ (startCall_depthInv c seed depth)).trace
  · intro h
    have g := StartCrawling_guard env sched c seed depth (Or.inl h)
    exact ⟨g.1, g.2.1, g.2.2.2 h⟩
  · intro m hm
    have hscn := scn_result m _ (run_scn m hm sched _ (startCall_scn m))
    exact ⟨hscn.1, hscn.2, (depthFirst_run m hm).1, (depthFirst_run m hm).2⟩

/-- The scenario of C2 with five allowed failures: the call returns under the
schedule in which `B` and `C` take turns, having fetched `A`, `C`, `B`; a call
for `D` at depth 2 does nothing. -/
theorem StartCrawling_respects_depth_limit_witness :
    (fetched (StartCrawling (Env.ofGraph scenarioGraph) takingTurns (NewCrawler 1 5)
      "A" 0).trace).Perm ["A", "B", "C"] ∧
    fetched (StartCrawling (Env.ofGraph scenarioGraph) takingTurns (NewCrawler 1 5)
      "A" 0).trace = ["A", "C", "B"] ∧
    (StartCrawling (Env.ofGraph scenarioGraph) [0] (NewCrawler 1 5) "D" 2).trace = [] ∧
    (StartCrawling (Env.ofGraph scenarioGraph) [0] (NewCrawler 1 5) "D" 2).returned = true :=
  ⟨((StartCrawling_respects_depth_limit (Env.ofGraph scenarioGraph) takingTurns (NewCrawler 1 5)
      "A" 0).2.2 5 (by decide)).2.1 (by decide),
    by decide,
    ((StartCrawling_respects_depth_limit (Env.ofGraph scenarioGraph) [0] (NewCrawler 1 5)
      "D" 2).2.1 (by decide)).2.1,
    ((StartCrawling_respects_depth_limit (Env.ofGraph scenarioGraph) [0] (NewCrawler 1 5)
      "D" 2).2.1 (by decide)).2.2 (by decide)⟩

/-- Claim C3, evaluated on the code.  What holds: when `FailureCount[u] >=
MaxFailures`, `isBlocked(u)` is true; a call `StartCrawling(u, depth)` made then
returns, under every schedule and for every depth, without a robots check or a
fetch and with the crawler unchanged; and through any calls made one after
another from that crawler, under any schedules, the count of `u` stays, `u`
stays blocked and gets neither a robots check nor a fetch.  What fails: a URL
does not stay blocked when a call for it is in flight at the moment it becomes
blocked.  With `MaxFailures = 1` and a page `A` with two links to `B`, the two
children both pass the guards (`isVisited` and `markVisited` lock separately);
the fetch of the first fails, which blocks `B`; the second then fetches `B`
all the same, succeeds, and `resetFailure` unblocks `B`. -/
theorem blocked_url_is_fetched_by_call_in_flight (env : Env) (c : Crawler) (u : String)
    (h : c.FailureCount u ≥ c.MaxFailures) :
    isBlocked c u = true ∧
    (∀ (sched : List Nat) (depth : Int),
      (StartCrawling env sched c u depth).c = c ∧
      (StartCrawling env sched c u depth).trace = [] ∧
      (3 ≤ sched.count 0 → (StartCrawling env sched c u depth).returned = true)) ∧
    (∀ calls : List (List Nat × String × Int),
      (runCalls env calls (c, [])).1.FailureCount u = c.FailureCount u ∧
      isBlocked (runCalls env calls (c, [])).1 u = true ∧
      Event.robots u ∉ (runCalls env calls (c, [])).2 ∧
      u ∉ fetched (runCalls env calls (c, [])).2) ∧
    ((StartCrawling retryEnv untilBlocked (NewCrawler 1 1) "A" 0).c.FailureCount "B" = 1 ∧
      isBlocked (StartCrawling retryEnv untilBlocked (NewCrawler 1 1) "A" 0).c "B" = true ∧
      fetched (StartCrawling retryEnv untilBlocked (NewCrawler 1 1) "A" 0).trace = ["A", "B"] ∧
      fetched (StartCrawling retryEnv (untilBlocked ++ afterBlocked) (NewCrawler 1 1)
        "A" 0).trace = ["A", "B", "B"] ∧
      isBlocked (StartCrawling retryEnv (untilBlocked ++ afterBlocked) (NewCrawler 1 1)
        "A" 0).c "B" = false ∧
      (StartCrawling retryEnv (untilBlocked ++ afterBlocked) (NewCrawler 1 1)
        "A" 0).returned = true) := by
  have hb : isBlocked c u = true := by simpa [isBlocked] using h
  refine ⟨hb, ?_, ?_, by decide⟩
  · intro sched depth
    have g := StartCrawling_guard env sched c u depth (Or.inr (Or.inr hb))
    exact ⟨g.1, g.2.1, g.2.2.1⟩
  · intro calls
    obtain ⟨a1, a2, a3, a4⟩ := runCalls_blocked env u c h calls (c, []) rfl rfl (by simp)
      (by simp [fetched])
    refine ⟨a1, ?_, a3, a4⟩
    simp only [isBlocked, decide_eq_true_eq, a1, a2]
    exact h

/-- A crawler in which `X` has failed twice with `MaxFailures = 2`: `X` is
blocked, a call for `X` does nothing, and a crawl of the scenario web made
first leaves `X` blocked. -/
theorem blocked_url_is_fetched_by_call_in_flight_witness :
    blockedCrawler.FailureCount "X" ≥ blockedCrawler.MaxFailures ∧
    isBlocked blockedCrawler "X" = true ∧
    (StartCrawling (Env.ofGraph scenarioGraph) [0, 0, 0] blockedCrawler "X" 0).trace = [] ∧
    (StartCrawling (Env.ofGraph scenarioGraph) [0, 0, 0] blockedCrawler "X" 0).returned
      = true ∧
    isBlocked (runCalls (Env.ofGraph scenarioGraph) [(depthFirst, "A", 0), ([0, 0, 0], "X", 0)]
      (blockedCrawler, [])).1 "X" = true :=
  ⟨by decide,
    (blocked_url_is_fetched_by_call_in_flight (Env.ofGraph scenarioGraph) blockedCrawler "X"
      (by decide)).1,
    ((blocked_url_is_fetched_by_call_in_flight (Env.ofGraph scenarioGraph) blockedCrawler "X"
      (by decide)).2.1 [0, 0, 0] 0).2.1,
    ((blocked_url_is_fetched_by_call_in_flight (Env.ofGraph scenarioGraph) blockedCrawler "X"
      (by decide)).2.1 [0, 0, 0] 0).2.2 (by decide),
    ((blocked_url_is_fetched_by_call_in_flight (Env.ofGraph scenarioGraph) blockedCrawler "X"
      (by decide)).2.2.1 [(depthFirst, "A", 0), ([0, 0, 0], "X", 0)]).2.1⟩

/-- Claim C4 fails as stated: with `MaxFailures = 2`, a fresh crawler and a
fetcher that always fails, the first call `StartCrawling(X, 0)` fetches `X`,
but the second call makes no call at all, because `X` is already marked
visited, and `FailureCount[X]` is 1 after it, not 2. -/
theorem second_attempt_is_skipped_as_visited :
    (StartCrawling failEnv [0, 0, 0, 0, 0, 0, 0, 0] (NewCrawler 0 2) "X" 0).returned = true ∧
    fetched (StartCrawling failEnv [0, 0, 0, 0, 0, 0, 0, 0] (NewCrawler 0 2) "X" 0).trace
      = ["X"] ∧
    (StartCrawling failEnv [0, 0, 0, 0, 0, 0, 0, 0]
      (StartCrawling failEnv [0, 0, 0, 0, 0, 0, 0, 0] (NewCrawler 0 2) "X" 0).c "X" 0).returned
      = true ∧
    (StartCrawling failEnv [0, 0, 0, 0, 0, 0, 0, 0]
      (StartCrawling failEnv [0, 0, 0, 0, 0, 0, 0, 0] (NewCrawler 0 2) "X" 0).c "X" 0).trace
      = [] ∧
    (StartCrawling failEnv [0, 0, 0, 0, 0, 0, 0, 0]
      (StartCrawling failEnv [0, 0, 0, 0, 0, 0, 0, 0] (NewCrawler 0 2) "X" 0).c
      "X" 0).c.FailureCount "X" = 1 ∧
    (runCalls failEnv [([0, 0, 0, 0, 0, 0, 0, 0], "X", 0), ([0, 0, 0, 0, 0, 0, 0, 0], "X", 0)]
      (NewCrawler 0 2, [])).1.FailureCount "X" ≠ 2 := by
  decide

/-- Claim C4, amended: with `MaxFailures = 2`, a fresh crawler with
`DepthLimit >= 0`, a URL `X` that the robots check allows and a fetcher that
always returns an error for `X`, the first call `StartCrawling(X, 0)`, given
its eight steps, returns having written the log line, checked robots,
attempted the fetch once and raised `FailureCount[X]` to 1; every later call
`StartCrawling(X, 0)` returns at the visited guard without any call, under
every schedule; so three successive calls make one fetch and leave
`FailureCount[X]` at 1. -/
theorem failed_url_is_not_retried (env : Env) (X : String) (depthLimit : Int)
    (sched sched2 sched3 : List Nat)
    (hd : 0 ≤ depthLimit) (hr : env.robots X = true) (hf : ∀ tr c, env.fetch tr c X = none)
    (hs : 8 ≤ sched.count 0) :
    (StartCrawling env sched (NewCrawler depthLimit 2) X 0).returned = true ∧
    (StartCrawling env sched (NewCrawler depthLimit 2) X 0).trace
      = [Event.log X, Event.robots X, Event.fetch X 0] ∧
    (StartCrawling env sched (NewCrawler depthLimit 2) X 0).c.FailureCount X = 1 ∧
    (StartCrawling env sched2 (StartCrawling env sched (NewCrawler depthLimit 2) X 0).c X 0).c
      = (StartCrawling env sched (NewCrawler depthLimit 2) X 0).c ∧
    (StartCrawling env sched2 (StartCrawling env sched (NewCrawler depthLimit 2) X 0).c
      X 0).trace = [] ∧
    (3 ≤ sched2.count 0 →
      (StartCrawling env sched2 (StartCrawling env sched (NewCrawler depthLimit 2) X 0).c
        X 0).returned = true) ∧
    (runCalls env [(sched, X, 0), (sched2, X, 0), (sched3, X, 0)]
      (NewCrawler depthLimit 2, [])).2 = [Event.log X, Event.robots X, Event.fetch X 0] ∧
    (runCalls env [(sched, X, 0), (sched2, X, 0), (sched3, X, 0)]
      (NewCrawler depthLimit 2, [])).1.FailureCount X = 1 := by
  have e := StartCrawling_failing env sched (NewCrawler depthLimit 2) X 0
    (by simp [NewCrawler]; omega) rfl (by simp [NewCrawler]) hr hf hs
  have hvis : isVisited (incrementFailure (markVisited (NewCrawler depthLimit 2) X) X) X = true := by
    simp [isVisited, incrementFailure, markVisited]
  have g := fun s => StartCrawling_guard env s
    (incrementFailure (markVisited (NewCrawler depthLimit 2) X) X) X 0 (Or.inr (Or.inl hvis))
  have w : wrapInt 1 = 1 := by decide
  have hcount : (incrementFailure (markVisited (NewCrawler depthLimit 2) X) X).FailureCount X
      = 1 := by
    simp [incrementFailure, markVisited, NewCrawler, w]
  rw [e]
  refine ⟨rfl, rfl, hcount, (g sched2).1, (g sched2).2.1, (g sched2).2.2.1, ?_, ?_⟩
  · simp only [runCalls, List.foldl, e, (g sched2).1, (g sched2).2.1, (g sched3).1,
      (g sched3).2.1]
    simp
  · simp only [runCalls, List.foldl, e, (g sched2).1, (g sched2).2.1, (g sched3).1,
      (g sched3).2.1]
    exact hcount

/-- Three calls for `X` on a fresh crawler with `DepthLimit = 0`: one fetch, one failure. -/
theorem failed_url_is_not_retried_witness :
    (StartCrawling failEnv [0, 0, 0, 0, 0, 0, 0, 0] (NewCrawler 0 2) "X" 0).c.FailureCount "X"
      = 1 ∧
    (runCalls failEnv [([0, 0, 0, 0, 0, 0, 0, 0], "X", 0), ([0, 0, 0], "X", 0), ([0, 0, 0], "X", 0)]
      (NewCrawler 0 2, [])).2 = [Event.log "X", Event.robots "X", Event.fetch "X" 0] :=
  ⟨(failed_url_is_not_retried failEnv "X" 0 [0, 0, 0, 0, 0, 0, 0, 0] [0, 0, 0] [0, 0, 0]
      (by decide) rfl (fun _ _ => rfl) (by decide)).2.2.1,
   (failed_url_is_not_retried failEnv "X" 0 [0, 0, 0, 0, 0, 0, 0, 0] [0, 0, 0] [0, 0, 0]
      (by decide) rfl (fun _ _ => rfl) (by decide)).2.2.2.2.2.2.1⟩

/-- The two-task machine agrees with the guards of `StartCrawling` on a task
that runs alone: it reaches the call of `fetchAndParsePage` exactly when the three guards let the
call through and the robots check allows the URL. -/
theorem task_alone_agrees_with_guards (env : Env) (c : Crawler) (u : String) (d : Int) :
    ((runSchedule env [false, false, false, false, false, false, false]
        (twoCalls c u d)).first.pc = PC.fetching ↔
      (¬ (d > c.DepthLimit ∨ isVisited c u = true ∨ isBlocked c u = true) ∧
        env.robots u = true)) := by
  simp only [runSchedule, twoCalls, Task.step]
  by_cases h1 : d > c.DepthLimit
  · simp [h1]
  · by_cases h2 : isVisited c u = true
    · simp [h1, h2]
    · by_cases h3 : isBlocked c u = true
      · simp [h1, h2, h3]
      · by_cases h4 : env.robots u = true
        · simp [h1, h2, h3, h4]
        · simp [h1, h2, h3, h4]

/-- Claim C5, evaluated on the code: `isVisited` and `markVisited` take the
mutex separately, so when two tasks call `StartCrawling(u, d)` for a URL that
passes the three guards and take turns step by step, both read `u` as
unvisited before either marks it, and both call `fetchAndParsePage(u)`.  When
one task runs to its fetch before the other starts, the second returns at the
visited guard and `u` is fetched once. -/
theorem concurrent_calls_can_both_fetch (env : Env) (c : Crawler) (u : String) (d : Int)
    (hd : d ≤ c.DepthLimit) (hv : c.VisitedURLs u = false)
    (hb : c.FailureCount u < c.MaxFailures) (hr : env.robots u = true) :
    (runSchedule env alternating (twoCalls c u d)).first.pc = PC.fetching ∧
    (runSchedule env alternating (twoCalls c u d)).second.pc = PC.fetching ∧
    fetched (runSchedule env alternating (twoCalls c u d)).shared.2 = [u, u] ∧
    (runSchedule env oneAfterTheOther (twoCalls c u d)).first.pc = PC.fetching ∧
    (runSchedule env oneAfterTheOther (twoCalls c u d)).second.pc = PC.returned ∧
    fetched (runSchedule env oneAfterTheOther (twoCalls c u d)).shared.2 = [u] := by
  have h1 : ¬ c.DepthLimit < d := by omega
  have h2 : ¬ c.MaxFailures ≤ c.FailureCount u := by omega
  simp [runSchedule, alternating, oneAfterTheOther, twoCalls, Task.step, isVisited, isBlocked,
    markVisited, fetched, h1, h2, hv, hr]

/-- Two tasks crawling `u` on a fresh crawler, taking turns: `u` is fetched twice. -/
theorem concurrent_calls_can_both_fetch_witness :
    fetched (runSchedule failEnv alternating (twoCalls (NewCrawler 0 5) "u" 0)).shared.2
      = ["u", "u"] :=
  (concurrent_calls_can_both_fetch failEnv (NewCrawler 0 5) "u" 0 (by decide) rfl (by decide)
    rfl).2.2.1

/-! ## The page parser: claims C6 and C10 -/

/-- Claim C6, evaluated on the code: for the body
`<title>Hi</title><meta name="description" content="d"/><a href="/p">link</a>`
the page has title `Hi` and the single link `/p` resolved against the page
URL (no link when that URL is empty or already visited), but its description is
empty, not `d`: the token loop handles start tag tokens only, and the `meta`
tag of this body is a self-closing tag token.  The same `meta` tag without the
slash is a start tag token and does set the description to `d`. -/
theorem self_closing_meta_is_ignored {U : Type} (L : URLLib U)
    (httpGet : String → Option (List Token)) (c : Crawler) (base : String)
    (h : httpGet base = some scenarioBody) :
    fetchAndParsePage L httpGet c base =
      some ⟨if resolveURL L base "/p" ≠ "" ∧ c.VisitedURLs (resolveURL L base "/p") = false
              then [resolveURL L base "/p"] else [], "Hi", "link", ""⟩ ∧
    (parseTokens L c base [metaTag TokenType.SelfClosingTagToken] ⟨[], "", "", ""⟩).description
      = "" ∧
    (parseTokens L c base [metaTag TokenType.StartTagToken] ⟨[], "", "", ""⟩).description
      = "d" := by
  refine ⟨?_, ?_, ?_⟩
  · simp [fetchAndParsePage, h, scenarioBody, metaTag, parseTokens, anchorLinks, isVisited]
  · simp [metaTag, parseTokens]
  · simp [metaTag, parseTokens, metaDescription]

/-- The body of C6 served at `http://h/x` to a fresh crawler: the link is
`http://h/p`, the description is empty. -/
theorem self_closing_meta_is_ignored_witness :
    fetchAndParsePage goFragment (fun _ => some scenarioBody) (NewCrawler 1 5) "http://h/x"
      = some ⟨["http://h/p"], "Hi", "link", ""⟩ :=
  (self_closing_meta_is_ignored goFragment (fun _ => some scenarioBody) (NewCrawler 1 5)
    "http://h/x" rfl).1.trans (by decide)

theorem loopTokens_of_no_title :
    ∀ tokens : List Token,
      (∀ t, t ∈ tokens → ¬ (t.Typ = TokenType.StartTagToken ∧ t.Data = "title")) →
      loopTokens tokens = tokens
  | [], _ => rfl
  | [_], _ => rfl
  | t :: t2 :: rest, h => by
    have ih := loopTokens_of_no_title (t2 :: rest) (fun x hx => h x (List.mem_cons_of_mem _ hx))
    have ht := h t (List.mem_cons_self _ _)
    simp only [loopTokens, if_neg ht, ih]

/-- The content the token loop returns is the content it started with followed
by the text of the tokens that reach its `switch`. -/
theorem parseTokens_content {U : Type} (L : URLLib U) (c : Crawler) (pageURL : String) :
    ∀ (n : Nat) (tokens : List Token) (p : Page), tokens.length ≤ n →
      (parseTokens L c pageURL tokens p).content = p.content ++ textOf (loopTokens tokens) := by
  intro n
  induction n with
  | zero =>
    intro tokens p h
    cases tokens with
    | nil => simp [parseTokens, loopTokens, textOf]
    | cons t rest => simp at h
  | succ n ih =>
    intro tokens p h
    match tokens, h with
    | [], _ => simp [parseTokens, loopTokens, textOf]
    | [t], _ =>
      rcases t with ⟨ty, data, attr⟩
      cases ty <;> simp [parseTokens, loopTokens, textOf]
      split_ifs <;> simp [parseTokens]
    | t :: t2 :: rest, h =>
      have h1 : (t2 :: rest).length ≤ n := by simp at h ⊢; omega
      have h2 : rest.length ≤ n := by simp at h ⊢; omega
      rcases t with ⟨ty, data, attr⟩
      cases ty <;>
        simp [parseTokens, loopTokens, textOf, ih _ _ h1, ih _ _ h2, String.append_assoc]
      split_ifs <;> simp_all [ih _ _ h1, ih _ _ h2, textOf]

/-- Claim C10 fails as stated: for the body of C6 the content is `link`, while
the text tokens of the stream concatenate to `Hilink`; the text token after
the `title` start tag is missing from the content. -/
theorem title_text_is_not_content :
    (fetchAndParsePage goFragment (fun _ => some scenarioBody) (NewCrawler 1 5)
      "http://h/x").map Page.content = some "link" ∧
    textOf scenarioBody = "Hilink" ∧
    (fetchAndParsePage goFragment (fun _ => some scenarioBody) (NewCrawler 1 5)
      "http://h/x").map Page.content ≠ some (textOf scenarioBody) := by
  decide

/-- Claim C10, amended: the content returned by `fetchAndParsePage` is the
concatenation, in document order, of the data of every text token that reaches
the `switch` of the token loop, that is of every text token except one that
comes right after a `title` start tag handled by the loop: that token is read
by the `title` case and becomes the title.  No other text is left out, text
inside script and style elements included; for a stream without a `title`
start tag the content is the concatenation of all its text tokens. -/
theorem content_is_text_outside_title {U : Type} (L : URLLib U)
    (httpGet : String → Option (List Token)) (c : Crawler) (pageURL : String)
    (tokens : List Token) (h : httpGet pageURL = some tokens) :
    (fetchAndParsePage L httpGet c pageURL).map Page.content
      = some (textOf (loopTokens tokens)) ∧
    ((∀ t, t ∈ tokens → ¬ (t.Typ = TokenType.StartTagToken ∧ t.Data = "title")) →
      (fetchAndParsePage L httpGet c pageURL).map Page.content = some (textOf tokens)) := by
  have e : (fetchAndParsePage L httpGet c pageURL).map Page.content
      = some (textOf (loopTokens tokens)) := by
    simp [fetchAndParsePage, h, parseTokens_content L c pageURL tokens.length tokens _ (le_refl _)]
  refine ⟨e, fun hno => ?_⟩
  rw [e, loopTokens_of_no_title tokens hno]

/-- A page with a script, a style and a paragraph: all three texts are content. -/
theorem content_is_text_outside_title_witness :
    (fetchAndParsePage goFragment
      (fun _ => some [⟨TokenType.StartTagToken, "script", []⟩, ⟨TokenType.TextToken, "x=1;", []⟩,
        ⟨TokenType.EndTagToken, "script", []⟩, ⟨TokenType.StartTagToken, "style", []⟩,
        ⟨TokenType.TextToken, "p{}", []⟩, ⟨TokenType.EndTagToken, "style", []⟩,
        ⟨TokenType.StartTagToken, "p", []⟩, ⟨TokenType.TextToken, "text", []⟩])
      (NewCrawler 1 5) "http://h/x").map Page.content = some "x=1;p\x7b\x7dtext" :=
  ((content_is_text_outside_title goFragment _ (NewCrawler 1 5) "http://h/x" _ rfl).2
    (by decide)).trans (by decide)

/-! ## Keyword extraction: claims C7 and C8 -/

/-- The scan of `Fields` only closes words that are non-empty and free of white space. -/
theorem fieldsFrom_words (rest : List Char) :
    ∀ cur : List Char, (∀ ch, ch ∈ cur → isSpace ch = false) →
      ∀ w, w ∈ fieldsFrom rest cur → w.data ≠ [] ∧ ∀ ch, ch ∈ w.data → isSpace ch = false := by
  induction rest with
  | nil =>
    intro cur hcur w hw
    unfold fieldsFrom at hw
    split at hw
    · simp at hw
    · rename_i hne
      simp only [List.mem_singleton] at hw
      subst hw
      exact ⟨hne, hcur⟩
  | cons ch rest ih =>
    intro cur hcur w hw
    unfold fieldsFrom at hw
    split at hw
    · split at hw
      · exact ih [] (by simp) w hw
      · rename_i hne
        rcases List.mem_cons.mp hw with rfl | hw
        · exact ⟨hne, hcur⟩
        · exact ih [] (by simp) w hw
    · rename_i hsp
      refine ih (cur ++ [ch]) ?_ w hw
      intro x hx
      rcases List.mem_append.mp hx with hx | hx
      · exact hcur x hx
      · simp only [List.mem_singleton] at hx
        subst hx
        simpa using hsp

/-- Every word of `Fields s` is non-empty and free of white space. -/
theorem Fields_words (s w : String) (h : w ∈ Fields s) :
    w.data ≠ [] ∧ ∀ ch, ch ∈ w.data → isSpace ch = false :=
  fieldsFrom_words s.data [] (by simp) w h
theorem mem_setInsert (keys : List String) (word w : String) :
    w ∈ setInsert keys word ↔ w ∈ keys ∨ w = word := by
  unfold setInsert
  split
  · constructor
    · exact Or.inl
    · rintro (h | rfl)
      · exact h
      · assumption
  · simp

theorem nodup_setInsert (keys : List String) (word : String) (h : keys.Nodup) :
    (setInsert keys word).Nodup := by
  unfold setInsert
  split
  · exact h
  · rename_i hn
    refine List.Nodup.append h (List.nodup_singleton word) ?_
    intro a ha hb
    simp only [List.mem_singleton] at hb
    subst hb
    exact hn ha

theorem keywordSet_cons (lower : Char → Char) (word : String) (words keys : List String) :
    keywordSet lower (word :: words) keys
      = keywordSet lower words
          (if len (ToLower lower (Trim word punctuation)) > 3
            then setInsert keys (ToLower lower (Trim word punctuation)) else keys) := by
  simp [keywordSet]

theorem mem_keywordSet (lower : Char → Char) (words : List String) (w : String) :
    ∀ keys : List String, w ∈ keywordSet lower words keys ↔
      w ∈ keys ∨
        ∃ word, word ∈ words ∧ ToLower lower (Trim word punctuation) = w ∧ len w > 3 := by
  induction words with
  | nil => intro keys; simp [keywordSet]
  | cons word words ih =>
    intro keys
    rw [keywordSet_cons, ih]
    split
    · rename_i hlen
      rw [mem_setInsert]
      constructor
      · rintro ((h | h) | ⟨x, hx, hw⟩)
        · exact Or.inl h
        · exact Or.inr ⟨word, List.mem_cons_self _ _, h.symm, by rw [h]; exact hlen⟩
        · exact Or.inr ⟨x, List.mem_cons_of_mem _ hx, hw⟩
      · rintro (h | ⟨x, hx, hw⟩)
        · exact Or.inl (Or.inl h)
        · rcases List.mem_cons.mp hx with rfl | hx
          · exact Or.inl (Or.inr hw.1.symm)
          · exact Or.inr ⟨x, hx, hw⟩
    · rename_i hlen
      constructor
      · rintro (h | ⟨x, hx, hw⟩)
        · exact Or.inl h
        · exact Or.inr ⟨x, List.mem_cons_of_mem _ hx, hw⟩
      · rintro (h | ⟨x, hx, hw⟩)
        · exact Or.inl h
        · rcases List.mem_cons.mp hx with rfl | hx
          · exact absurd (by rw [hw.1]; exact hw.2) hlen
          · exact Or.inr ⟨x, hx, hw⟩

theorem nodup_keywordSet (lower : Char → Char) (words : List String) :
    ∀ keys : List String, keys.Nodup → (keywordSet lower words keys).Nodup := by
  induction words with
  | nil => intro keys h; simpa [keywordSet] using h
  | cons word words ih =>
    intro keys h
    rw [keywordSet_cons]
    apply ih
    split
    · exact nodup_setInsert _ _ h
    · exact h

theorem mem_extractKeywords (lower : Char → Char) (order : MapOrder) (content w : String) :
    w ∈ extractKeywords lower order content ↔
      ∃ word, word ∈ Fields content ∧ ToLower lower (Trim word punctuation) = w ∧
        len w > 3 := by
  unfold extractKeywords
  rw [(order.perm _).mem_iff, mem_keywordSet]
  simp

theorem nodup_extractKeywords (lower : Char → Char) (order : MapOrder) (content : String) :
    (extractKeywords lower order content).Nodup := by
  unfold extractKeywords
  rw [(order.perm _).nodup_iff]
  exact nodup_keywordSet lower _ [] List.nodup_nil

/-- Claim C7: when the word list `Fields c2` is a permutation of the word list
`Fields c`, `extractKeywords c` and `extractKeywords c2` have the same
elements, whatever the case table and whatever order the map yields its keys
in either call, and neither result has a duplicate. -/
theorem extractKeywords_ignores_word_order (lower : Char → Char) (order order2 : MapOrder)
    (c c2 : String) (h : (Fields c2).Perm (Fields c)) :
    (∀ w, w ∈ extractKeywords lower order c ↔ w ∈ extractKeywords lower order2 c2) ∧
    (extractKeywords lower order c).Nodup ∧ (extractKeywords lower order2 c2).Nodup := by
  refine ⟨?_, nodup_extractKeywords lower order c, nodup_extractKeywords lower order2 c2⟩
  intro w
  rw [mem_extractKeywords, mem_extractKeywords]
  constructor
  · rintro ⟨x, hx, hw⟩; exact ⟨x, h.mem_iff.mpr hx, hw⟩
  · rintro ⟨x, hx, hw⟩; exact ⟨x, h.mem_iff.mp hx, hw⟩

/-- Two contents with the same words in another order, extracted with two map
orders: the keyword lists differ in order only. -/
theorem extractKeywords_ignores_word_order_witness :
    (Fields "Gamma, alpha beta? alpha").Perm (Fields "alpha beta? Gamma, alpha") ∧
    extractKeywords Char.toLower insertionOrder "alpha beta? Gamma, alpha"
      = ["alpha", "beta", "gamma"] ∧
    extractKeywords Char.toLower reverseOrder "Gamma, alpha beta? alpha"
      = ["beta", "alpha", "gamma"] ∧
    ("gamma" ∈ extractKeywords Char.toLower insertionOrder "alpha beta? Gamma, alpha" ↔
      "gamma" ∈ extractKeywords Char.toLower reverseOrder "Gamma, alpha beta? alpha") ∧
    (extractKeywords Char.toLower reverseOrder "Gamma, alpha beta? alpha").Nodup :=
  ⟨by decide, by decide, by decide,
    (extractKeywords_ignores_word_order Char.toLower insertionOrder reverseOrder
      "alpha beta? Gamma, alpha" "Gamma, alpha beta? alpha" (by decide)).1 "gamma",
    (extractKeywords_ignores_word_order Char.toLower insertionOrder reverseOrder
      "alpha beta? Gamma, alpha" "Gamma, alpha beta? alpha" (by decide)).2.2⟩

/-- Claim C8: every keyword `extractKeywords c` returns has a byte length above
3, and `w` is returned exactly when some word of `Fields c`, trimmed of the
punctuation characters at both edges and put in lower case, equals `w` and has
a byte length above 3.  The length is `len`, the number of bytes: the word made
of two letters e-acute has four bytes and is returned. -/
theorem extractKeywords_keeps_long_words (lower : Char → Char) (order : MapOrder)
    (c : String) :
    (∀ w, w ∈ extractKeywords lower order c → len w > 3) ∧
    (∀ w, w ∈ extractKeywords lower order c ↔
      ∃ word, word ∈ Fields c ∧ ToLower lower (Trim word punctuation) = w ∧ len w > 3) ∧
    extractKeywords Char.toLower insertionOrder
      (String.mk [Char.ofNat 233, Char.ofNat 233, ' ', 'a', 'b', 'c', '.'])
      = [String.mk [Char.ofNat 233, Char.ofNat 233]] := by
  refine ⟨?_, mem_extractKeywords lower order c, by decide⟩
  intro w hw
  obtain ⟨_, _, _, h⟩ := (mem_extractKeywords lower order c w).mp hw
  exact h

/-! ## URL resolution: claim C9 -/

end crawler
